import Mathlib

/-!
Verification of the Long-Term-Statistics (LTS) result-file merger subsystem
of the mikeio1d repository (`util/DHI.Mike1D.MikeIO`): `DataEntry`,
`LTSResultEvents`, `ResultMerger`, `LTSResultMerger`,
`LTSResultMergerExtreme`, `LTSResultMergerPeriodic`.

Modelling conventions:
* IEEE `double`/`float` values are modelled as exact rationals (`ℚ`); the
  C# `(float)` narrowing casts are the identity in this model.
* .NET `DateTime` is modelled by its tick count (an integer).
* Fallible operations (the `Dictionary` indexer, which throws
  `KeyNotFoundException` on a missing key; `Enumerable.Max` on an empty
  sequence; the factory on unsupported input) are modelled with
  `Option`/`Except`.
* The mutable `ResultData`/`IDataItem` object graph is modelled by explicit
  state passing: a `ResultData` value owns its list of `DataItem`s, and a
  `DataEntry` refers to a data item by its index into that list (this models
  C# reference aliasing: several entries of one item share the item).
-/

namespace MikeIOModel

/-- Item type group of a data item (`DHI.Mike1D.ResultDataAccess.ItemTypeGroup`,
external enum; only the members used by the merger are modelled, with one
representative for all remaining members). -/
inductive ItemTypeGroup where
  | GlobalItem
  | NodeItem
  | ReachItem
  | CatchmentItem
  deriving DecidableEq, Repr

/-- A quantity descriptor: its id and human readable description
(`DHI.Mike1D.Generic.IQuantity`, the two members the merger reads). -/
structure Quantity where
  id : String
  description : String
  deriving DecidableEq, Repr

/-- `DataEntryId`: tuple id for a `DataEntry`
(quantity id, item type group, number within group, element index).
From `DataEntry.cs`. -/
structure DataEntryId where
  quantityId : String
  itemTypeGroup : ItemTypeGroup
  numberWithinGroup : Int
  elementIndex : Int
  deriving DecidableEq, Repr

/-- `DataEntryId(quantityId, entryId)`: sibling id deriving constructor —
same group, number and element, different quantity id. From `DataEntry.cs`. -/
def DataEntryId.withQuantityId (quantityId : String) (entryId : DataEntryId) : DataEntryId :=
  { quantityId := quantityId
    itemTypeGroup := entryId.itemTypeGroup
    numberWithinGroup := entryId.numberWithinGroup
    elementIndex := entryId.elementIndex }

/-- .NET `DateTime`, modelled by its tick count (100ns units). -/
structure DateTime where
  ticks : Int
  deriving DecidableEq, Repr

/-- Ticks per second of a .NET `DateTime`. -/
def ticksPerSecond : Int := 10000000

/-- `DateTime.AddSeconds`. -/
def DateTime.addSeconds (d : DateTime) (s : Int) : DateTime :=
  ⟨d.ticks + s * ticksPerSecond⟩

/-- `new DateTime(100, 1, 1)`: the reference epoch used by
`LTSResultMergerExtreme.GetTimesListForEventResults`.  Years 1..99 of the
proleptic Gregorian calendar contain 99*365 + 24 = 36159 days, and a day has
864000000000 ticks. -/
def dateTimeYear100 : DateTime := ⟨36159 * 864000000000⟩

/-- `Constants.DOUBLE_DELETE_VALUE` cast to `float` (the engine's marker for
"no data"; its numerical value is irrelevant to the merger, any fixed
constant works). -/
def doubleDeleteValue : ℚ := -(1 / 10 ^ 35)

/-- A data item (`IDataItem`): one quantity over the elements of one
location group, holding a time × element value array.
`timeData` is the list of time steps, each a list of per-element values;
`NumberOfTimeSteps` is `timeData.length`. -/
structure DataItem where
  quantity : Quantity
  itemTypeGroup : ItemTypeGroup
  numberWithinGroup : Int
  numberOfElements : Nat
  timeData : List (List ℚ)
  deriving DecidableEq, Repr

/-- Placeholder data item (out-of-range index accesses in the model return
this; the C# code would throw instead, and every theorem below puts the
relevant indices in range). -/
def defaultItem : DataItem :=
  { quantity := ⟨"", ""⟩
    itemTypeGroup := .GlobalItem
    numberWithinGroup := 0
    numberOfElements := 0
    timeData := [] }

/-- `IDataItem.NumberOfTimeSteps` (= `TimeData.NumberOfTimeSteps`). -/
def DataItem.numberOfTimeSteps (it : DataItem) : Nat := it.timeData.length

/-- `IDataItem.GetValue(timeStepIndex, elementIndex)`. -/
def DataItem.getValue (it : DataItem) (timeStepIndex elementIndex : Nat) : ℚ :=
  (it.timeData.getD timeStepIndex []).getD elementIndex 0

/-- `DataEntry.ExpandTimeData(expansionSize)`: appends `expansionSize`
time steps, each filled with the delete value for every element of the item.
From `DataEntry.cs`. -/
def DataItem.expandTimeData (it : DataItem) (expansionSize : Nat) : DataItem :=
  { it with
    timeData := it.timeData ++
      List.replicate expansionSize (List.replicate it.numberOfElements doubleDeleteValue) }

/-- `TimeData.SetValue(timeStepIndex, elementIndex, value)`: in-range write
into the time × element array. -/
def DataItem.setValueAt (it : DataItem) (timeStepIndex elementIndex : Nat) (value : ℚ) :
    DataItem :=
  { it with
    timeData := it.timeData.set timeStepIndex
      ((it.timeData.getD timeStepIndex []).set elementIndex value) }

/-- Result type of a result file (`ResultTypes`, external enum; only the
members the factories dispatch on are modelled, with one representative for
all remaining members). -/
inductive ResultTypes where
  | LTSEvents
  | LTSAnnual
  | LTSMonthly
  | Unknown
  deriving DecidableEq, Repr

/-- A loaded result file (`ResultData`): its declared result type, master
time axis (`TimesList`) and data items (the `DataSets` × `DataItems`
hierarchy flattened in enumeration order). -/
structure ResultData where
  resultType : ResultTypes
  timesList : List DateTime
  dataItems : List DataItem
  deriving DecidableEq, Repr

/-- `DataEntry`: a reference to one data item of the owning `ResultData`
(by position, modelling the C# object reference) plus an element index.
From `DataEntry.cs`. -/
structure DataEntry where
  itemIndex : Nat
  elementIndex : Nat
  deriving DecidableEq, Repr

/-- The data item referenced by a data entry (`DataEntry.DataItem`). -/
def ResultData.item (rd : ResultData) (de : DataEntry) : DataItem :=
  rd.dataItems.getD de.itemIndex defaultItem

/-- `DataEntry.EntryId`, as computed by the `DataEntry` constructor from the
referenced data item. -/
def ResultData.entryId (rd : ResultData) (de : DataEntry) : DataEntryId :=
  { quantityId := (rd.item de).quantity.id
    itemTypeGroup := (rd.item de).itemTypeGroup
    numberWithinGroup := (rd.item de).numberWithinGroup
    elementIndex := (de.elementIndex : Int) }

/-- `ResultDataExtensions.GetAllDataEntries`: one entry per data item per
element index in `[0, NumberOfElements)`. -/
def ResultData.getAllDataEntries (rd : ResultData) : List DataEntry :=
  (List.range rd.dataItems.length).flatMap fun i =>
    (List.range (rd.dataItems.getD i defaultItem).numberOfElements).map fun e =>
      ⟨i, e⟩

/-- `DataEntry.SetValue(timeStepIndex, value)`: expand the item's time data
with delete-value-filled steps when the index is beyond the current number
of time steps, then write the value at (timeStepIndex, ElementIndex).
From `DataEntry.cs`; the shared mutation of the item is modelled by
rebuilding the owning `ResultData`. -/
def ResultData.setValue (rd : ResultData) (de : DataEntry) (timeStepIndex : Nat) (value : ℚ) :
    ResultData :=
  let it := rd.item de
  let numberOfTimeSteps := it.numberOfTimeSteps
  let it2 := if numberOfTimeSteps ≤ timeStepIndex
    then it.expandTimeData (timeStepIndex - numberOfTimeSteps + 1)
    else it
  let it3 := it2.setValueAt timeStepIndex de.elementIndex value
  { rd with dataItems := rd.dataItems.set de.itemIndex it3 }

/-- The metadata of a data item that `SetValue` never touches:
quantity, item type group, number within group and number of elements. -/
def DataItem.meta (it : DataItem) : Quantity × ItemTypeGroup × Int × Nat :=
  (it.quantity, it.itemTypeGroup, it.numberWithinGroup, it.numberOfElements)

theorem setValue_timesList (rd : ResultData) (de : DataEntry) (i : Nat) (v : ℚ) :
    (rd.setValue de i v).timesList = rd.timesList := rfl

theorem setValue_resultType (rd : ResultData) (de : DataEntry) (i : Nat) (v : ℚ) :
    (rd.setValue de i v).resultType = rd.resultType := rfl

theorem setValue_dataItems_length (rd : ResultData) (de : DataEntry) (i : Nat) (v : ℚ) :
    (rd.setValue de i v).dataItems.length = rd.dataItems.length := by
  simp [ResultData.setValue]

theorem setValue_dataItems_getD_ne (rd : ResultData) (de : DataEntry) (i : Nat) (v : ℚ)
    (k : Nat) (hk : k ≠ de.itemIndex) :
    (rd.setValue de i v).dataItems.getD k defaultItem
      = rd.dataItems.getD k defaultItem := by
  simp only [ResultData.setValue, List.getD_eq_getElem?_getD]
  rw [List.getElem?_set_ne (fun h => hk h.symm)]

/-- Resolving the item reference of the written entry after a `SetValue`:
the referenced slot now holds the expanded-then-written item. -/
theorem item_setValue_self (rd : ResultData) (de : DataEntry) (i : Nat) (v : ℚ)
    (hItem : de.itemIndex < rd.dataItems.length) :
    (rd.setValue de i v).item de =
      (if (rd.item de).numberOfTimeSteps ≤ i
        then (rd.item de).expandTimeData (i - (rd.item de).numberOfTimeSteps + 1)
        else (rd.item de)).setValueAt i de.elementIndex v := by
  simp only [ResultData.setValue, ResultData.item, List.getD_eq_getElem?_getD]
  rw [List.getElem?_set_self hItem]
  rfl

theorem setValue_item_meta (rd : ResultData) (de : DataEntry) (i : Nat) (v : ℚ)
    (de2 : DataEntry) :
    ((rd.setValue de i v).item de2).meta = (rd.item de2).meta := by
  by_cases hk : de2.itemIndex = de.itemIndex
  · rcases Nat.lt_or_ge de.itemIndex rd.dataItems.length with hin | hin
    · have h2 : (rd.setValue de i v).item de2 = (rd.setValue de i v).item de := by
        simp only [ResultData.item, hk]
      have h3 : rd.item de2 = rd.item de := by
        simp only [ResultData.item, hk]
      rw [h2, h3, item_setValue_self rd de i v hin]
      split <;> rfl
    · have h2 : (rd.setValue de i v).dataItems = rd.dataItems := by
        simp only [ResultData.setValue]
        exact List.set_eq_of_length_le hin
      simp only [ResultData.item, h2]
  · unfold ResultData.item
    rw [setValue_dataItems_getD_ne rd de i v de2.itemIndex hk]

theorem setValue_entryId (rd : ResultData) (de : DataEntry) (i : Nat) (v : ℚ)
    (de2 : DataEntry) :
    (rd.setValue de i v).entryId de2 = rd.entryId de2 := by
  have h := setValue_item_meta rd de i v de2
  simp only [DataItem.meta, Prod.mk.injEq] at h
  simp [ResultData.entryId, h.1, h.2.1, h.2.2.1]

/-- Core of the expand-then-write path of `SetValue`, at the data item
level: after expanding by `i - numberOfTimeSteps + 1` delete-value-filled
steps and writing `v` at `(i, e)`, the series has `i + 1` steps, holds `v`
at `(i, e)`, the delete value at every other appended position, and its
pre-existing steps are unchanged. -/
theorem expandTimeData_setValueAt_spec (it : DataItem) (e i : Nat) (v : ℚ)
    (hElem : e < it.numberOfElements)
    (hBeyond : it.numberOfTimeSteps ≤ i) :
    ((it.expandTimeData (i - it.numberOfTimeSteps + 1)).setValueAt i e v).numberOfTimeSteps
        = i + 1 ∧
    ((it.expandTimeData (i - it.numberOfTimeSteps + 1)).setValueAt i e v).getValue i e = v ∧
    (∀ j k, it.numberOfTimeSteps ≤ j → j ≤ i → k < it.numberOfElements → ¬(j = i ∧ k = e) →
      ((it.expandTimeData (i - it.numberOfTimeSteps + 1)).setValueAt i e v).getValue j k
        = doubleDeleteValue) ∧
    (∀ j, j < it.numberOfTimeSteps →
      ((it.expandTimeData (i - it.numberOfTimeSteps + 1)).setValueAt i e v).timeData[j]?
        = it.timeData[j]?) := by
  have hnts : it.numberOfTimeSteps = it.timeData.length := rfl
  have hrowlen : (List.replicate it.numberOfElements doubleDeleteValue).length
      = it.numberOfElements := List.length_replicate ..
  have htd2 : (it.expandTimeData (i - it.numberOfTimeSteps + 1)).timeData
      = it.timeData ++ List.replicate (i - it.numberOfTimeSteps + 1)
          (List.replicate it.numberOfElements doubleDeleteValue) := rfl
  have hlen2 : (it.expandTimeData (i - it.numberOfTimeSteps + 1)).timeData.length = i + 1 := by
    rw [htd2]
    simp only [List.length_append, List.length_replicate]
    omega
  have hgetmid : ∀ j, it.numberOfTimeSteps ≤ j → j ≤ i →
      (it.expandTimeData (i - it.numberOfTimeSteps + 1)).timeData[j]?
        = some (List.replicate it.numberOfElements doubleDeleteValue) := by
    intro j hj1 hj2
    rw [htd2, List.getElem?_append_right (by omega)]
    exact List.getElem?_replicate_of_lt (by omega)
  have hrowi : (it.expandTimeData (i - it.numberOfTimeSteps + 1)).timeData.getD i []
      = List.replicate it.numberOfElements doubleDeleteValue := by
    rw [List.getD_eq_getElem?_getD, hgetmid i hBeyond (le_refl i)]
    rfl
  have htd3 : ((it.expandTimeData (i - it.numberOfTimeSteps + 1)).setValueAt i e v).timeData
      = (it.expandTimeData (i - it.numberOfTimeSteps + 1)).timeData.set i
          ((List.replicate it.numberOfElements doubleDeleteValue).set e v) := by
    simp only [DataItem.setValueAt, hrowi]
  refine ⟨?_, ?_, ?_, ?_⟩
  · show ((it.expandTimeData (i - it.numberOfTimeSteps + 1)).setValueAt i e v).timeData.length
        = i + 1
    rw [htd3, List.length_set, hlen2]
  · simp only [DataItem.getValue, htd3, List.getD_eq_getElem?_getD]
    rw [List.getElem?_set_self (by rw [hlen2]; omega)]
    simp only [Option.getD_some]
    rw [List.getElem?_set_self (by rw [hrowlen]; exact hElem)]
    rfl
  · intro j k hj1 hj2 hk hne
    simp only [DataItem.getValue, htd3, List.getD_eq_getElem?_getD]
    by_cases hji : j = i
    · subst hji
      have hkne : k ≠ e := fun hkk => hne ⟨rfl, hkk⟩
      rw [List.getElem?_set_self (by rw [hlen2]; omega)]
      simp only [Option.getD_some]
      rw [List.getElem?_set_ne (fun h => hkne h.symm), List.getElem?_replicate_of_lt hk]
      rfl
    · rw [List.getElem?_set_ne (fun h => hji h.symm), hgetmid j hj1 hj2]
      simp only [Option.getD_some]
      rw [List.getElem?_replicate_of_lt hk]
      rfl
  · intro j hj
    rw [htd3, List.getElem?_set_ne (by omega), htd2]
    exact List.getElem?_append_left (by omega)

/-- C6: `DataEntry.SetValue(i, v)` with `i` beyond the current number of
time steps first appends delete-value-filled steps so the series has
exactly `i + 1` steps, then writes `v` at `(i, elementIndex)`; afterwards
the value at `(i, elementIndex)` is `v`, every other newly appended
position holds the delete value, and the pre-existing time steps are
unchanged. -/
theorem DataEntry.setValue_expand_spec (rd : ResultData) (de : DataEntry) (i : Nat) (v : ℚ)
    (hItem : de.itemIndex < rd.dataItems.length)
    (hElem : de.elementIndex < (rd.item de).numberOfElements)
    (hBeyond : (rd.item de).numberOfTimeSteps ≤ i) :
    ((rd.setValue de i v).item de).numberOfTimeSteps = i + 1 ∧
    ((rd.setValue de i v).item de).getValue i de.elementIndex = v ∧
    (∀ j k, (rd.item de).numberOfTimeSteps ≤ j → j ≤ i →
      k < (rd.item de).numberOfElements → ¬(j = i ∧ k = de.elementIndex) →
      ((rd.setValue de i v).item de).getValue j k = doubleDeleteValue) ∧
    (∀ j, j < (rd.item de).numberOfTimeSteps →
      ((rd.setValue de i v).item de).timeData[j]? = (rd.item de).timeData[j]?) := by
  have hres := item_setValue_self rd de i v hItem
  rw [if_pos hBeyond] at hres
  rw [hres]
  exact expandTimeData_setValueAt_spec (rd.item de) de.elementIndex i v hElem hBeyond

/-- C6 witness input: one data item with two elements and one existing
time step. -/
def exampleItemC6 : DataItem :=
  { quantity := ⟨"WaterLevelMaximum", "Water level maximum"⟩
    itemTypeGroup := .NodeItem
    numberWithinGroup := 1
    numberOfElements := 2
    timeData := [[5, 6]] }

/-- C6 witness file. -/
def exampleFileC6 : ResultData :=
  { resultType := .LTSEvents
    timesList := [⟨0⟩]
    dataItems := [exampleItemC6] }

/-- Witness for C6: a concrete expanding write, with the hypotheses
discharged at `⟨0, 1⟩`, time step 3. -/
theorem DataEntry.setValue_expand_spec_witness :
    ((exampleFileC6.setValue ⟨0, 1⟩ 3 7).item ⟨0, 1⟩).numberOfTimeSteps = 3 + 1 ∧
    ((exampleFileC6.setValue ⟨0, 1⟩ 3 7).item ⟨0, 1⟩).getValue 3 1 = 7 ∧
    (∀ j k, (exampleFileC6.item ⟨0, 1⟩).numberOfTimeSteps ≤ j → j ≤ 3 →
      k < (exampleFileC6.item ⟨0, 1⟩).numberOfElements → ¬(j = 3 ∧ k = 1) →
      ((exampleFileC6.setValue ⟨0, 1⟩ 3 7).item ⟨0, 1⟩).getValue j k = doubleDeleteValue) ∧
    (∀ j, j < (exampleFileC6.item ⟨0, 1⟩).numberOfTimeSteps →
      ((exampleFileC6.setValue ⟨0, 1⟩ 3 7).item ⟨0, 1⟩).timeData[j]?
        = (exampleFileC6.item ⟨0, 1⟩).timeData[j]?) :=
  DataEntry.setValue_expand_spec exampleFileC6 ⟨0, 1⟩ 3 7
    (by decide) (by decide) (by decide)

/-! ## LTS events and their comparison policies (`LTSResultEvents.cs`) -/

/-- `LTSResultEvent`: one extreme event (value, time). -/
structure LTSResultEvent where
  Value : ℚ
  Time : ℚ
  deriving DecidableEq, Repr

instance : Inhabited LTSResultEvent := ⟨⟨0, 0⟩⟩

/-- `LTSResultEventPeriodic`: one periodic (annual/monthly) accumulation.
The C# class extends `LTSResultEvent`; the inherited fields are inlined. -/
structure LTSResultEventPeriodic where
  Value : ℚ
  Time : ℚ
  Count : Int
  Duration : ℚ
  TimePeriod : DateTime
  deriving DecidableEq, Repr

instance : Inhabited LTSResultEventPeriodic := ⟨⟨0, 0, 0, 0, ⟨0⟩⟩⟩

/-- `Double.CompareTo` / `DateTime.CompareTo` on a linear order, as a
-1/0/1 comparison integer. -/
def compareQ (a b : ℚ) : Int :=
  if a < b then -1 else if b < a then 1 else 0

/-- `LTSResultEvents.CompareValue`: descending by `Value`, ties broken
ascending by `Time` (the C# local `cvalue` is inlined: the result is the
value comparison unless that is 0, in which case it is the time
comparison). -/
def LTSResultEvents.CompareValue (e1 e2 : LTSResultEvent) : Int :=
  if compareQ e2.Value e1.Value = 0 then compareQ e1.Time e2.Time
  else compareQ e2.Value e1.Value

/-- The total preorder induced by the `CompareValue` comparator
("`e1` sorts no later than `e2`"). -/
def extremeLE (e1 e2 : LTSResultEvent) : Prop :=
  LTSResultEvents.CompareValue e1 e2 ≤ 0

instance : DecidableRel extremeLE := fun e1 e2 => by
  unfold extremeLE
  infer_instance

theorem extremeLE_iff (e1 e2 : LTSResultEvent) :
    extremeLE e1 e2 ↔ e2.Value < e1.Value ∨ (e1.Value = e2.Value ∧ e1.Time ≤ e2.Time) := by
  unfold extremeLE LTSResultEvents.CompareValue compareQ
  rcases lt_trichotomy e1.Value e2.Value with hv | hv | hv
  · rw [if_neg (lt_asymm hv), if_pos hv, if_neg (by norm_num : ¬((1 : Int) = 0))]
    constructor
    · intro h
      exact absurd h (by norm_num)
    · rintro (h | ⟨h, -⟩)
      · exact absurd hv (lt_asymm h)
      · exact absurd h (ne_of_lt hv)
  · have hne1 : ¬e2.Value < e1.Value := by
      rw [hv]
      exact lt_irrefl _
    have hne2 : ¬e1.Value < e2.Value := by
      rw [hv]
      exact lt_irrefl _
    rw [if_neg hne1, if_neg hne2, if_pos rfl]
    constructor
    · intro h
      refine Or.inr ⟨hv, ?_⟩
      by_contra hlt
      push_neg at hlt
      rw [if_neg (lt_asymm hlt), if_pos hlt] at h
      exact absurd h (by norm_num)
    · rintro (h | ⟨-, ht⟩)
      · exact absurd h hne1
      · rcases lt_or_eq_of_le ht with hlt | heq
        · rw [if_pos hlt]
          norm_num
        · rw [if_neg (by rw [heq]; exact lt_irrefl _),
            if_neg (by rw [heq]; exact lt_irrefl _)]
  · rw [if_pos hv, if_neg (by norm_num : ¬((-1 : Int) = 0))]
    constructor
    · intro _
      exact Or.inl hv
    · intro _
      norm_num

instance : IsTotal LTSResultEvent extremeLE :=
  ⟨fun e1 e2 => by
    rw [extremeLE_iff, extremeLE_iff]
    rcases lt_trichotomy e1.Value e2.Value with hv | hv | hv
    · exact Or.inr (Or.inl hv)
    · rcases le_total e1.Time e2.Time with ht | ht
      · exact Or.inl (Or.inr ⟨hv, ht⟩)
      · exact Or.inr (Or.inr ⟨hv.symm, ht⟩)
    · exact Or.inl (Or.inl hv)⟩

instance : IsTrans LTSResultEvent extremeLE :=
  ⟨fun e1 e2 e3 h12 h23 => by
    rw [extremeLE_iff] at h12 h23 ⊢
    rcases h12 with h12 | ⟨h12, t12⟩ <;> rcases h23 with h23 | ⟨h23, t23⟩
    · exact Or.inl (lt_trans h23 h12)
    · exact Or.inl (h23 ▸ h12)
    · exact Or.inl (h12 ▸ h23)
    · exact Or.inr ⟨h12.trans h23, t12.trans t23⟩⟩

/-- `LTSResultEvents.SortOnValue`: sort with the `CompareValue` comparator.
.NET `List.Sort` is an unstable comparison sort; it is modelled with
insertion sort, which likewise returns a permutation of the input ordered
by the comparator (the only facts the merger relies on). -/
def LTSResultEvents.sortOnValue (l : List LTSResultEvent) : List LTSResultEvent :=
  List.insertionSort extremeLE l

/-- The comparator of `LTSResultEvents.SortOnTimePeriod`: compares the
`TimePeriod` fields only (`DateTime.CompareTo`). -/
def periodicLE (e1 e2 : LTSResultEventPeriodic) : Prop :=
  e1.TimePeriod.ticks ≤ e2.TimePeriod.ticks

instance : DecidableRel periodicLE := fun e1 e2 => by
  unfold periodicLE
  infer_instance

instance : IsTotal LTSResultEventPeriodic periodicLE :=
  ⟨fun e1 e2 => Int.le_total e1.TimePeriod.ticks e2.TimePeriod.ticks⟩

instance : IsTrans LTSResultEventPeriodic periodicLE :=
  ⟨fun _ _ _ h12 h23 => Int.le_trans h12 h23⟩

/-- `LTSResultEvents.SortOnTimePeriod`: sort ascending by `TimePeriod`
(same modelling note as `sortOnValue`). -/
def LTSResultEvents.sortOnTimePeriod (l : List LTSResultEventPeriodic) :
    List LTSResultEventPeriodic :=
  List.insertionSort periodicLE l

/-! ## SortResults / ProcessResults stages -/

/-- Modelled from the spec: `LTSResultMergerExtreme.SortResults` — the
override itself is not under `src/` (the base class only declares it);
per spec §4.4 it sorts every accumulated event list in place with the
`CompareValue` comparator, i.e. `SortOnValue`. -/
def LTSResultMergerExtreme.sortResults
    (m : List (DataEntryId × List LTSResultEvent)) :
    List (DataEntryId × List LTSResultEvent) :=
  m.map fun p => (p.1, LTSResultEvents.sortOnValue p.2)

/-- `LTSResultMergerExtreme.ProcessResults`: a no-op. -/
def LTSResultMergerExtreme.processResults
    (m : List (DataEntryId × List LTSResultEvent)) :
    List (DataEntryId × List LTSResultEvent) :=
  m

/-- Modelled from the spec: `LTSResultMergerPeriodic.SortResults` — the
override itself is not under `src/`; per spec §4.4 it sorts every
accumulated event list ascending by `TimePeriod`, i.e.
`SortOnTimePeriod`. -/
def LTSResultMergerPeriodic.sortResults
    (m : List (DataEntryId × List LTSResultEventPeriodic)) :
    List (DataEntryId × List LTSResultEventPeriodic) :=
  m.map fun p => (p.1, LTSResultEvents.sortOnTimePeriod p.2)

/-- The loop body of `LTSResultMergerPeriodic.ProcessResults`: the three
`+=` statements folding the later duplicate event into the earlier one
(which keeps its own `Time` and `TimePeriod`). -/
def LTSResultMergerPeriodic.mergeInto (before after : LTSResultEventPeriodic) :
    LTSResultEventPeriodic :=
  { before with
    Value := before.Value + after.Value
    Count := before.Count + after.Count
    Duration := before.Duration + after.Duration }

/-- The per-list collapse of `LTSResultMergerPeriodic.ProcessResults`:
the C# loop walks the index `i` from the end of the list down to 1 and,
whenever the events at `i` and `i - 1` share a `TimePeriod`, folds event
`i` into event `i - 1` (`mergeInto`) and removes event `i`.  Processing
the list from the right this way is the recursion on the tail below: the
head is compared with the already-collapsed head of the processed tail,
exactly as the loop compares position `i - 1` with the merged survivor at
position `i`. -/
def LTSResultMergerPeriodic.processEvents :
    List LTSResultEventPeriodic → List LTSResultEventPeriodic
  | [] => []
  | e :: rest =>
    match LTSResultMergerPeriodic.processEvents rest with
    | [] => [e]
    | e2 :: rest2 =>
      if e.TimePeriod = e2.TimePeriod then
        LTSResultMergerPeriodic.mergeInto e e2 :: rest2
      else e :: e2 :: rest2

/-- `LTSResultMergerPeriodic.ProcessResults`: collapse every entry's
event list. -/
def LTSResultMergerPeriodic.processResults
    (m : List (DataEntryId × List LTSResultEventPeriodic)) :
    List (DataEntryId × List LTSResultEventPeriodic) :=
  m.map fun p => (p.1, LTSResultMergerPeriodic.processEvents p.2)

/-- C2: after the SortResults stage of an Extreme merge, every entry's
merged event list is sorted non-increasing by `Value`, and any two events
with equal `Value` appear in non-decreasing order of `Time`. -/
theorem extreme_sortResults_sorted (m : List (DataEntryId × List LTSResultEvent))
    (p : DataEntryId × List LTSResultEvent)
    (hp : p ∈ LTSResultMergerExtreme.sortResults m) :
    p.2.Pairwise (fun a b => b.Value ≤ a.Value ∧ (a.Value = b.Value → a.Time ≤ b.Time)) := by
  rcases List.mem_map.mp hp with ⟨q, -, rfl⟩
  have hs : (LTSResultEvents.sortOnValue q.2).Sorted extremeLE :=
    List.sorted_insertionSort extremeLE q.2
  refine hs.imp fun {a b} hab => ?_
  rcases (extremeLE_iff a b).mp hab with h | ⟨h, ht⟩
  · exact ⟨le_of_lt h, fun he => absurd (he ▸ h) (lt_irrefl _)⟩
  · exact ⟨le_of_eq h.symm, fun _ => ht⟩

/-- C2 witness input. -/
def exampleIdC2 : DataEntryId := ⟨"DischargeMaximum", .NodeItem, 1, 0⟩

/-- C2 witness event list (unsorted, with a `Value` tie). -/
def exampleListC2 : List LTSResultEvent := [⟨3, 30⟩, ⟨10, 1⟩, ⟨10, 0⟩, ⟨7, 2⟩]

/-- Witness for C2 at a concrete entry map. -/
theorem extreme_sortResults_sorted_witness :
    (LTSResultEvents.sortOnValue exampleListC2).Pairwise
      (fun a b => b.Value ≤ a.Value ∧ (a.Value = b.Value → a.Time ≤ b.Time)) :=
  extreme_sortResults_sorted [(exampleIdC2, exampleListC2)]
    (exampleIdC2, LTSResultEvents.sortOnValue exampleListC2)
    (by simp [LTSResultMergerExtreme.sortResults])

theorem dateTime_eq_iff_ticks (a b : DateTime) : a = b ↔ a.ticks = b.ticks := by
  cases a
  cases b
  simp

@[simp] theorem mergeInto_TimePeriod (a b : LTSResultEventPeriodic) :
    (LTSResultMergerPeriodic.mergeInto a b).TimePeriod = a.TimePeriod := rfl

theorem LTSResultMergerPeriodic.processEvents_cons_ne_nil
    (e : LTSResultEventPeriodic) (rest : List LTSResultEventPeriodic) :
    LTSResultMergerPeriodic.processEvents (e :: rest) ≠ [] := by
  simp only [LTSResultMergerPeriodic.processEvents]
  split
  · simp
  · split <;> simp

theorem LTSResultMergerPeriodic.processEvents_head_tp
    (e : LTSResultEventPeriodic) (rest : List LTSResultEventPeriodic) :
    ∃ e2 rest2, LTSResultMergerPeriodic.processEvents (e :: rest) = e2 :: rest2 ∧
      e2.TimePeriod = e.TimePeriod := by
  simp only [LTSResultMergerPeriodic.processEvents]
  split
  · exact ⟨e, [], rfl, rfl⟩
  · split
    · exact ⟨_, _, rfl, rfl⟩
    · exact ⟨e, _, rfl, rfl⟩

theorem LTSResultMergerPeriodic.processEvents_tp_mem
    (l : List LTSResultEventPeriodic) :
    ∀ x ∈ LTSResultMergerPeriodic.processEvents l, ∃ u ∈ l, x.TimePeriod = u.TimePeriod := by
  induction l with
  | nil => simp [LTSResultMergerPeriodic.processEvents]
  | cons e rest ih =>
    intro x hx
    simp only [LTSResultMergerPeriodic.processEvents] at hx
    split at hx
    · rcases List.mem_singleton.mp hx with rfl
      exact ⟨_, List.mem_cons_self .., rfl⟩
    · rename_i e2 rest2 heq
      split at hx
      · rcases List.mem_cons.mp hx with rfl | hx2
        · exact ⟨e, List.mem_cons_self .., rfl⟩
        · have hx3 : x ∈ LTSResultMergerPeriodic.processEvents rest := by
            rw [heq]
            exact List.mem_cons_of_mem _ hx2
          rcases ih x hx3 with ⟨u, hu, htpu⟩
          exact ⟨u, List.mem_cons_of_mem _ hu, htpu⟩
      · rcases List.mem_cons.mp hx with rfl | hx2
        · exact ⟨_, List.mem_cons_self .., rfl⟩
        · have hx3 : x ∈ LTSResultMergerPeriodic.processEvents rest := by
            rw [heq]
            exact hx2
          rcases ih x hx3 with ⟨u, hu, htpu⟩
          exact ⟨u, List.mem_cons_of_mem _ hu, htpu⟩

theorem LTSResultMergerPeriodic.processEvents_strict
    (l : List LTSResultEventPeriodic) (hs : l.Sorted periodicLE) :
    (LTSResultMergerPeriodic.processEvents l).Pairwise
      fun a b => a.TimePeriod.ticks < b.TimePeriod.ticks := by
  induction l with
  | nil => simp [LTSResultMergerPeriodic.processEvents]
  | cons e rest ih =>
    have hse : ∀ u ∈ rest, periodicLE e u := (List.sorted_cons.mp hs).1
    have hrest : rest.Sorted periodicLE := (List.sorted_cons.mp hs).2
    have ihp := ih hrest
    simp only [LTSResultMergerPeriodic.processEvents]
    split
    · simp
    · rename_i e2 rest2 heq
      rw [heq] at ihp
      have he2mem : e2 ∈ LTSResultMergerPeriodic.processEvents rest := by
        rw [heq]
        exact List.mem_cons_self ..
      rcases LTSResultMergerPeriodic.processEvents_tp_mem rest e2 he2mem with ⟨u, hu, htpu⟩
      have hle : e.TimePeriod.ticks ≤ e2.TimePeriod.ticks := by
        rw [htpu]
        exact hse u hu
      have hstrict2 : ∀ x ∈ rest2, e2.TimePeriod.ticks < x.TimePeriod.ticks :=
        (List.pairwise_cons.mp ihp).1
      have hrest2 : rest2.Pairwise (fun a b => a.TimePeriod.ticks < b.TimePeriod.ticks) :=
        (List.pairwise_cons.mp ihp).2
      split
      · rename_i htp
        refine List.Pairwise.cons ?_ hrest2
        intro x hx
        have hm : (LTSResultMergerPeriodic.mergeInto e e2).TimePeriod.ticks
            = e2.TimePeriod.ticks := by
          rw [mergeInto_TimePeriod, htp]
        rw [hm]
        exact hstrict2 x hx
      · rename_i htp
        have hlt : e.TimePeriod.ticks < e2.TimePeriod.ticks := by
          rcases lt_or_eq_of_le hle with h | h
          · exact h
          · exact absurd ((dateTime_eq_iff_ticks _ _).mpr h) htp
        refine List.Pairwise.cons ?_ ihp
        intro x hx
        rcases List.mem_cons.mp hx with rfl | hx2
        · exact hlt
        · exact lt_trans hlt (hstrict2 x hx2)

/-- Field summation through the collapse: on a list sorted by `TimePeriod`,
every surviving event's additive field equals the sum of that field over
all input events sharing its `TimePeriod`. -/
theorem LTSResultMergerPeriodic.processEvents_sum {M : Type} [AddCommMonoid M]
    (f : LTSResultEventPeriodic → M)
    (hf : ∀ a b, f (LTSResultMergerPeriodic.mergeInto a b) = f a + f b)
    (l : List LTSResultEventPeriodic) (hs : l.Sorted periodicLE) :
    ∀ x ∈ LTSResultMergerPeriodic.processEvents l,
      f x = ((l.filter fun u => u.TimePeriod = x.TimePeriod).map f).sum := by
  induction l with
  | nil => simp [LTSResultMergerPeriodic.processEvents]
  | cons e rest ih =>
    have hse : ∀ u ∈ rest, periodicLE e u := (List.sorted_cons.mp hs).1
    have hrest : rest.Sorted periodicLE := (List.sorted_cons.mp hs).2
    have ihs := ih hrest
    intro x hx
    simp only [LTSResultMergerPeriodic.processEvents] at hx
    split at hx
    · rename_i heq
      have hrnil : rest = [] := by
        cases rest with
        | nil => rfl
        | cons a as => exact absurd heq (LTSResultMergerPeriodic.processEvents_cons_ne_nil a as)
      subst hrnil
      rcases List.mem_singleton.mp hx with rfl
      simp
    · rename_i e2 rest2 heq
      obtain ⟨r, rs, rfl⟩ : ∃ r rs, rest = r :: rs := by
        cases rest with
        | nil => simp [LTSResultMergerPeriodic.processEvents] at heq
        | cons r rs => exact ⟨r, rs, rfl⟩
      rcases LTSResultMergerPeriodic.processEvents_head_tp r rs with ⟨e2h, rest2h, heqh, htph⟩
      rw [heq] at heqh
      injection heqh with h1 h2
      subst h1
      subst h2
      split at hx
      · rename_i htp
        rcases List.mem_cons.mp hx with rfl | hx2
        · rw [hf]
          have he2 : f e2
              = (((r :: rs).filter fun u => u.TimePeriod = e2.TimePeriod).map f).sum := by
            refine ihs e2 ?_
            rw [heq]
            exact List.mem_cons_self ..
          simp only [mergeInto_TimePeriod]
          rw [List.filter_cons, if_pos (by simp), List.map_cons, List.sum_cons]
          congr 1
          simp only [htp]
          exact he2
        · have hx3 : x ∈ LTSResultMergerPeriodic.processEvents (r :: rs) := by
            rw [heq]
            exact List.mem_cons_of_mem _ hx2
          have hxs := ihs x hx3
          have hstrict := LTSResultMergerPeriodic.processEvents_strict (r :: rs) hrest
          rw [heq] at hstrict
          have hlt : e2.TimePeriod.ticks < x.TimePeriod.ticks :=
            (List.pairwise_cons.mp hstrict).1 x hx2
          have hnex : ¬(e.TimePeriod = x.TimePeriod) := by
            intro hh
            rw [htp] at hh
            rw [hh] at hlt
            exact lt_irrefl _ hlt
          rw [List.filter_cons, if_neg (by simp only [decide_eq_true_eq]; exact hnex)]
          exact hxs
      · rename_i htp
        have hle : e.TimePeriod.ticks ≤ e2.TimePeriod.ticks := by
          rw [htph]
          exact hse r (List.mem_cons_self ..)
        have hlt : e.TimePeriod.ticks < e2.TimePeriod.ticks := by
          rcases lt_or_eq_of_le hle with h | h
          · exact h
          · exact absurd ((dateTime_eq_iff_ticks _ _).mpr h) htp
        have hallrest : ∀ u ∈ r :: rs, e2.TimePeriod.ticks ≤ u.TimePeriod.ticks := by
          intro u hu
          rw [htph]
          rcases List.mem_cons.mp hu with rfl | hu2
          · exact le_refl _
          · exact (List.sorted_cons.mp hrest).1 u hu2
        rcases List.mem_cons.mp hx with rfl | hx2
        · have hfilter : ((r :: rs).filter fun u => u.TimePeriod = x.TimePeriod) = [] := by
            rw [List.filter_eq_nil_iff]
            intro u hu
            simp only [decide_eq_true_eq]
            intro hh
            have h1 := hallrest u hu
            rw [hh] at h1
            exact absurd hlt (not_lt_of_ge h1)
          rw [List.filter_cons, if_pos (by simp), hfilter]
          simp
        · have hx3 : x ∈ LTSResultMergerPeriodic.processEvents (r :: rs) := by
            rw [heq]
            exact hx2
          have hxs := ihs x hx3
          rcases LTSResultMergerPeriodic.processEvents_tp_mem (r :: rs) x hx3 with ⟨u, hu, htpx⟩
          have hticks : e.TimePeriod.ticks < x.TimePeriod.ticks := by
            rw [htpx]
            exact lt_of_lt_of_le hlt (hallrest u hu)
          have hnex : ¬(e.TimePeriod = x.TimePeriod) := by
            intro hh
            rw [hh] at hticks
            exact lt_irrefl _ hticks
          rw [List.filter_cons, if_neg (by simp only [decide_eq_true_eq]; exact hnex)]
          exact hxs

/-- C1: after SortResults and ProcessResults of a Periodic merge, every
entry's event list has pairwise-distinct, strictly increasing `TimePeriod`
values, and the `Value`, `Count` and `Duration` of each remaining period
equal the sums of those fields over all accumulated events (from all input
files) that had that `TimePeriod`. -/
theorem periodic_collapse_spec (m : List (DataEntryId × List LTSResultEventPeriodic))
    (p : DataEntryId × List LTSResultEventPeriodic)
    (hp : p ∈ LTSResultMergerPeriodic.processResults (LTSResultMergerPeriodic.sortResults m)) :
    ∃ l, (p.1, l) ∈ m ∧
      p.2.Pairwise (fun a b => a.TimePeriod.ticks < b.TimePeriod.ticks) ∧
      ∀ x ∈ p.2,
        x.Value = ((l.filter fun u => u.TimePeriod = x.TimePeriod).map (·.Value)).sum ∧
        x.Count = ((l.filter fun u => u.TimePeriod = x.TimePeriod).map (·.Count)).sum ∧
        x.Duration = ((l.filter fun u => u.TimePeriod = x.TimePeriod).map (·.Duration)).sum := by
  rcases List.mem_map.mp hp with ⟨q, hq, rfl⟩
  rcases List.mem_map.mp hq with ⟨q0, hq0, rfl⟩
  have hsorted : (LTSResultEvents.sortOnTimePeriod q0.2).Sorted periodicLE :=
    List.sorted_insertionSort periodicLE q0.2
  have hperm : List.Perm (LTSResultEvents.sortOnTimePeriod q0.2) q0.2 :=
    List.perm_insertionSort periodicLE q0.2
  refine ⟨q0.2, ?_, ?_, ?_⟩
  · have : (q0.1, q0.2) = q0 := rfl
    rw [this]
    exact hq0
  · exact LTSResultMergerPeriodic.processEvents_strict _ hsorted
  · intro x hx
    refine ⟨?_, ?_, ?_⟩
    · rw [LTSResultMergerPeriodic.processEvents_sum (fun u => u.Value)
        (fun a b => rfl) _ hsorted x hx]
      exact ((hperm.filter _).map _).sum_eq
    · rw [LTSResultMergerPeriodic.processEvents_sum (fun u => u.Count)
        (fun a b => rfl) _ hsorted x hx]
      exact ((hperm.filter _).map _).sum_eq
    · rw [LTSResultMergerPeriodic.processEvents_sum (fun u => u.Duration)
        (fun a b => rfl) _ hsorted x hx]
      exact ((hperm.filter _).map _).sum_eq

/-- C1 witness input id. -/
def exampleIdC1 : DataEntryId := ⟨"DischargeIntegratedMonthly", .NodeItem, 1, 0⟩

/-- C1 witness accumulated event list: two files contributed the same
month (ticks 2023006) plus an earlier month (ticks 2023001). -/
def exampleListC1 : List LTSResultEventPeriodic :=
  [⟨5, 0, 10, 100, ⟨2023006⟩⟩, ⟨3, 0, 4, 40, ⟨2023006⟩⟩, ⟨2, 0, 1, 7, ⟨2023001⟩⟩]

/-- Witness for C1 at a concrete entry map. -/
theorem periodic_collapse_spec_witness :
    ∃ l, (exampleIdC1, l) ∈ [(exampleIdC1, exampleListC1)] ∧
      (LTSResultMergerPeriodic.processEvents
        (LTSResultEvents.sortOnTimePeriod exampleListC1)).Pairwise
        (fun a b => a.TimePeriod.ticks < b.TimePeriod.ticks) ∧
      ∀ x ∈ LTSResultMergerPeriodic.processEvents
          (LTSResultEvents.sortOnTimePeriod exampleListC1),
        x.Value = ((l.filter fun u => u.TimePeriod = x.TimePeriod).map (·.Value)).sum ∧
        x.Count = ((l.filter fun u => u.TimePeriod = x.TimePeriod).map (·.Count)).sum ∧
        x.Duration = ((l.filter fun u => u.TimePeriod = x.TimePeriod).map (·.Duration)).sum :=
  periodic_collapse_spec [(exampleIdC1, exampleListC1)]
    (exampleIdC1,
      LTSResultMergerPeriodic.processEvents (LTSResultEvents.sortOnTimePeriod exampleListC1))
    (by simp [LTSResultMergerPeriodic.processResults, LTSResultMergerPeriodic.sortResults])

/-! ## Errors, factories (`LTSResultMerger.Create`, `ResultMerger.Create`) -/

/-- The exceptions the merger subsystem can raise, as error values. -/
inductive MergeError where
  | emptyInput
  | notSupported
  | keyNotFound
  | invalidOperation
  | argument
  deriving DecidableEq, Repr

/-- Which concrete merger class a factory selects. -/
inductive MergerKind where
  | extreme
  | periodic
  | regular
  deriving DecidableEq, Repr

/-- `LTSResultMerger.Create`: throws on an empty collection
("Empty result data list provided."), dispatches on the first file's
result type, and throws `NotSupportedException` for any other type. -/
def LTSResultMerger.create (resultDataCollection : List ResultData) :
    Except MergeError MergerKind :=
  match resultDataCollection with
  | [] => .error .emptyInput
  | resultData :: _ =>
    match resultData.resultType with
    | .LTSEvents => .ok .extreme
    | .LTSAnnual => .ok .periodic
    | .LTSMonthly => .ok .periodic
    | .Unknown => .error .notSupported

/-- `ResultMerger.Create`: same dispatch, but any non-LTS type gets the
plain byte-append `ResultMerger`. -/
def ResultMerger.create (resultDataCollection : List ResultData) :
    Except MergeError MergerKind :=
  match resultDataCollection with
  | [] => .error .emptyInput
  | resultData :: _ =>
    match resultData.resultType with
    | .LTSEvents => .ok .extreme
    | .LTSAnnual => .ok .periodic
    | .LTSMonthly => .ok .periodic
    | .Unknown => .ok .regular

/-- C8: an empty input collection is rejected with the empty-input error
(the factory runs before any file is read: with an empty path list the
load step `paths.Select(LoadFile)` performs no I/O at all); for a
non-empty collection the LTS factory returns the Extreme merger for
`LTSEvents`, the Periodic merger for `LTSAnnual`/`LTSMonthly`, and an
unsupported-result-type error for every other result type. -/
theorem merger_factory_spec :
    LTSResultMerger.create [] = .error .emptyInput ∧
    ResultMerger.create [] = .error .emptyInput ∧
    (∀ rd rest, rd.resultType = .LTSEvents →
      LTSResultMerger.create (rd :: rest) = .ok .extreme) ∧
    (∀ rd rest, rd.resultType = .LTSAnnual ∨ rd.resultType = .LTSMonthly →
      LTSResultMerger.create (rd :: rest) = .ok .periodic) ∧
    (∀ rd rest, rd.resultType ≠ .LTSEvents → rd.resultType ≠ .LTSAnnual →
      rd.resultType ≠ .LTSMonthly →
      LTSResultMerger.create (rd :: rest) = .error .notSupported) := by
  refine ⟨rfl, rfl, ?_, ?_, ?_⟩
  · intro rd rest h
    simp [LTSResultMerger.create, h]
  · intro rd rest h
    rcases h with h | h <;> simp [LTSResultMerger.create, h]
  · intro rd rest h1 h2 h3
    cases hrt : rd.resultType
    · exact absurd hrt h1
    · exact absurd hrt h2
    · exact absurd hrt h3
    · simp [LTSResultMerger.create, hrt]

/-- C8 witness files (one per dispatch branch). -/
def exampleFileEvents : ResultData :=
  { resultType := .LTSEvents, timesList := [], dataItems := [] }

/-- C8 witness file with an annual result type. -/
def exampleFileAnnual : ResultData :=
  { resultType := .LTSAnnual, timesList := [], dataItems := [] }

/-- C8 witness file with an unsupported result type. -/
def exampleFileUnknown : ResultData :=
  { resultType := .Unknown, timesList := [], dataItems := [] }

/-- Witness for C8 at concrete collections. -/
theorem merger_factory_spec_witness :
    LTSResultMerger.create [exampleFileEvents] = .ok .extreme ∧
    LTSResultMerger.create [exampleFileAnnual] = .ok .periodic ∧
    LTSResultMerger.create [exampleFileUnknown] = .error .notSupported :=
  ⟨merger_factory_spec.2.2.1 exampleFileEvents [] rfl,
    merger_factory_spec.2.2.2.1 exampleFileAnnual [] (Or.inl rfl),
    merger_factory_spec.2.2.2.2 exampleFileUnknown [] (by decide) (by decide) (by decide)⟩

/-! ## UpdateTimesList (`LTSResultMergerExtreme` / `LTSResultMergerPeriodic`) -/

/-- `LTSResultMergerExtreme.GetTimesListForEventResults`: synthetic axis of
`largestNumberOfEvents` placeholder timestamps, slot `i` being the year-100
epoch plus `i` seconds. -/
def LTSResultMergerExtreme.getTimesListForEventResults (largestNumberOfEvents : Nat) :
    List DateTime :=
  (List.range largestNumberOfEvents).map fun i : Nat => dateTimeYear100.addSeconds (i : Int)

/-- `LTSResultMergerExtreme.UpdateTimesList`: the merged axis has one slot
per event up to the largest event-list length.  `Enumerable.Max` throws
`InvalidOperationException` on an empty sequence, modelled as an error. -/
def LTSResultMergerExtreme.updateTimesList
    (m : List (DataEntryId × List LTSResultEvent)) (rd : ResultData) :
    Except MergeError ResultData :=
  match (m.map fun p => p.2.length).max? with
  | none => .error .invalidOperation
  | some largestNumberOfEvents =>
    .ok { rd with
      timesList := LTSResultMergerExtreme.getTimesListForEventResults largestNumberOfEvents }

/-- `LTSResultMergerPeriodic.UpdateTimesList`: take the first entry with a
non-empty collapsed event list and use its `TimePeriod`s as the axis;
return with no modification when every list is empty. -/
def LTSResultMergerPeriodic.updateTimesList
    (m : List (DataEntryId × List LTSResultEventPeriodic)) (rd : ResultData) : ResultData :=
  match m.find? (fun p => 0 < p.2.length) with
  | none => rd
  | some p => { rd with timesList := p.2.map (·.TimePeriod) }

/-- The synthetic Extreme axis has one slot per event rank. -/
theorem getTimesListForEventResults_length (n : Nat) :
    (LTSResultMergerExtreme.getTimesListForEventResults n).length = n := by
  simp only [LTSResultMergerExtreme.getTimesListForEventResults, List.length_map,
    List.length_range]

/-- Slot `i` of the synthetic Extreme axis is the epoch plus `i` seconds. -/
theorem getTimesListForEventResults_getElem (n i : Nat) (hi : i < n) :
    (LTSResultMergerExtreme.getTimesListForEventResults n)[i]?
      = some (dateTimeYear100.addSeconds i) := by
  simp only [LTSResultMergerExtreme.getTimesListForEventResults]
  rw [List.getElem?_map, List.getElem?_range hi]
  rfl

/-- C4: for a non-empty entry map, `UpdateTimesList` of an Extreme merge
succeeds and produces an axis whose length is the maximum event-list
length over all entries, slot `i` holding the year-100 reference epoch
plus `i` seconds. -/
theorem extreme_updateTimesList_spec (m : List (DataEntryId × List LTSResultEvent))
    (rd : ResultData) (hm : m ≠ []) :
    ∃ rd2, LTSResultMergerExtreme.updateTimesList m rd = .ok rd2 ∧
      (∀ p ∈ m, p.2.length ≤ rd2.timesList.length) ∧
      (∃ p ∈ m, p.2.length = rd2.timesList.length) ∧
      ∀ i < rd2.timesList.length, rd2.timesList[i]? = some (dateTimeYear100.addSeconds i) := by
  have hmapne : (m.map fun p => p.2.length) ≠ [] := by
    simp [hm]
  rcases hmax : (m.map fun p => p.2.length).max? with _ | M
  · exact absurd (List.max?_eq_none_iff.mp hmax) hmapne
  · have hM := (List.max?_eq_some_iff (fun a => le_refl a) (fun a b => max_choice a b)
      (fun a b c => max_le_iff)).mp hmax
    refine ⟨{ rd with
        timesList := LTSResultMergerExtreme.getTimesListForEventResults M }, ?_, ?_, ?_, ?_⟩
    · simp [LTSResultMergerExtreme.updateTimesList, hmax]
    · intro p hp
      have hmem : p.2.length ∈ m.map fun p => p.2.length := List.mem_map_of_mem _ hp
      have hle := hM.2 _ hmem
      simpa [getTimesListForEventResults_length] using hle
    · rcases List.mem_map.mp hM.1 with ⟨p, hp, hpM⟩
      refine ⟨p, hp, ?_⟩
      simp [getTimesListForEventResults_length, hpM]
    · intro i hi
      have hi2 : i < M := by
        simpa [getTimesListForEventResults_length] using hi
      exact getTimesListForEventResults_getElem M i hi2

/-- C4 witness entry map. -/
def exampleMapC4 : List (DataEntryId × List LTSResultEvent) :=
  [(⟨"DischargeMaximum", .NodeItem, 1, 0⟩, [⟨10, 1⟩, ⟨7, 2⟩]),
   (⟨"WaterLevelMaximum", .NodeItem, 1, 0⟩, [⟨4, 3⟩])]

/-- C4 witness destination file. -/
def exampleFileC4 : ResultData :=
  { resultType := .LTSEvents, timesList := [⟨5⟩], dataItems := [] }

/-- Witness for C4 at a concrete entry map. -/
theorem extreme_updateTimesList_spec_witness :
    ∃ rd2, LTSResultMergerExtreme.updateTimesList exampleMapC4 exampleFileC4 = .ok rd2 ∧
      (∀ p ∈ exampleMapC4, p.2.length ≤ rd2.timesList.length) ∧
      (∃ p ∈ exampleMapC4, p.2.length = rd2.timesList.length) ∧
      ∀ i < rd2.timesList.length, rd2.timesList[i]? = some (dateTimeYear100.addSeconds i) :=
  extreme_updateTimesList_spec exampleMapC4 exampleFileC4 (by decide)

/-- C5: `UpdateTimesList` of a Periodic merge sets the axis to exactly the
`TimePeriod` sequence of some entry's non-empty collapsed event list, and
leaves the destination completely unchanged when every entry's list is
empty. -/
theorem periodic_updateTimesList_spec (m : List (DataEntryId × List LTSResultEventPeriodic))
    (rd : ResultData) :
    ((∀ p ∈ m, p.2 = []) → LTSResultMergerPeriodic.updateTimesList m rd = rd) ∧
    ((∃ p ∈ m, p.2 ≠ []) → ∃ p ∈ m, p.2 ≠ [] ∧
      (LTSResultMergerPeriodic.updateTimesList m rd).timesList = p.2.map (·.TimePeriod)) := by
  constructor
  · intro hall
    have hfind : m.find? (fun p => 0 < p.2.length) = none := by
      rw [List.find?_eq_none]
      intro p hp
      simp [hall p hp]
    simp [LTSResultMergerPeriodic.updateTimesList, hfind]
  · intro hex
    rcases hfind : m.find? (fun p => 0 < p.2.length) with _ | p
    · rcases hex with ⟨p, hp, hpne⟩
      have := List.find?_eq_none.mp hfind p hp
      simp only [decide_eq_true_eq, not_lt, Nat.le_zero, List.length_eq_zero] at this
      exact absurd this hpne
    · refine ⟨p, List.mem_of_find?_eq_some hfind, ?_, ?_⟩
      · have := List.find?_some hfind
        simp only [decide_eq_true_eq] at this
        intro hnil
        rw [hnil] at this
        simp at this
      · simp [LTSResultMergerPeriodic.updateTimesList, hfind]

/-- C5 witness map with one empty and one non-empty entry. -/
def exampleMapC5 : List (DataEntryId × List LTSResultEventPeriodic) :=
  [(⟨"DischargeIntegratedMonthlyCount", .NodeItem, 1, 0⟩, []),
   (⟨"DischargeIntegratedMonthly", .NodeItem, 1, 0⟩, [⟨5, 0, 10, 100, ⟨2023006⟩⟩])]

/-- C5 witness all-empty map. -/
def exampleMapC5empty : List (DataEntryId × List LTSResultEventPeriodic) :=
  [(⟨"DischargeIntegratedMonthly", .NodeItem, 1, 0⟩, [])]

/-- C5 witness destination file. -/
def exampleFileC5 : ResultData :=
  { resultType := .LTSAnnual, timesList := [⟨7⟩], dataItems := [] }

/-- Witness for C5: the empty case leaves the file untouched, the
non-empty case copies a non-empty entry's periods. -/
theorem periodic_updateTimesList_spec_witness :
    LTSResultMergerPeriodic.updateTimesList exampleMapC5empty exampleFileC5 = exampleFileC5 ∧
    (∃ p ∈ exampleMapC5, p.2 ≠ [] ∧
      (LTSResultMergerPeriodic.updateTimesList exampleMapC5 exampleFileC5).timesList
        = p.2.map (·.TimePeriod)) :=
  ⟨(periodic_updateTimesList_spec exampleMapC5empty exampleFileC5).1 (by decide),
    (periodic_updateTimesList_spec exampleMapC5 exampleFileC5).2
      ⟨exampleMapC5[1], by decide, by decide⟩⟩

/-! ## Regular-file merge (`ResultMerger.Merge` / `AppendToFile`) -/

/-- One time step of a DFS file: its time (in the axis unit, relative to
the file start) and the raw data arrays of its dynamic items. -/
structure DfsTimeStep where
  time : ℚ
  itemData : List (List ℚ)
  deriving DecidableEq, Repr

/-- The dynamic content of a DFS file seen through the generic DFS API used
by `ResultMerger.AppendToFile`: the ordered list of its time steps (the
static header is irrelevant to the append and omitted). -/
structure DfsFile where
  timeSteps : List DfsTimeStep
  deriving DecidableEq, Repr

/-- `FileInfo.TimeAxis.TimeSpan()`: the time of the last time step (with a
zero `StartTimeOffset`, exactly the assumption stated in the source
comments). -/
def DfsFile.timeSpan (f : DfsFile) : ℚ :=
  ((f.timeSteps.getLast?).map (·.time)).getD 0

/-- `ResultMerger.AppendToFile`: skip the source's first time step, then
append every remaining step's raw item data with its time offset by the
target's current end time. -/
def ResultMerger.appendToFile (target source : DfsFile) : DfsFile :=
  { timeSteps := target.timeSteps ++
      (source.timeSteps.drop 1).map fun s => { s with time := target.timeSpan + s.time } }

/-- `ResultMerger.Merge`: copy the first file to the destination, then
append every remaining input file (the loop skips the entry that *is* the
first file). `none` models the empty-collection failure path. -/
def ResultMerger.mergeFiles (files : List DfsFile) : Option DfsFile :=
  match files with
  | [] => none
  | first :: rest => some (rest.foldl ResultMerger.appendToFile first)

/-- C7: merging file A (N steps) with file B (M steps, B's first step's
data equal to A's last) gives exactly N + M - 1 steps; steps `[0, N)`
equal A's and steps `[N, N+M-1)` equal B's steps `[1, M)` with timestamps
shifted by A's elapsed duration (A's end time, `TimeSpan()`; with A's
first timestamp at 0 this is A's elapsed duration). -/
theorem regular_merge_two_files (A B : DfsFile)
    (hA : A.timeSteps ≠ []) (hB : B.timeSteps ≠ [])
    (hfirst0 : (A.timeSteps.head?.map (·.time)).getD 0 = 0)
    (hmatch : B.timeSteps.head?.map (·.itemData) = A.timeSteps.getLast?.map (·.itemData)) :
    ∃ C, ResultMerger.mergeFiles [A, B] = some C ∧
      C.timeSteps.length = A.timeSteps.length + B.timeSteps.length - 1 ∧
      (∀ i < A.timeSteps.length, C.timeSteps[i]? = A.timeSteps[i]?) ∧
      (∀ j, 1 ≤ j → j < B.timeSteps.length →
        C.timeSteps[A.timeSteps.length + j - 1]? =
          (B.timeSteps[j]?).map fun s => { s with time := A.timeSpan + s.time }) := by
  refine ⟨ResultMerger.appendToFile A B, rfl, ?_, ?_, ?_⟩
  · simp only [ResultMerger.appendToFile, List.length_append, List.length_map,
      List.length_drop]
    have : B.timeSteps.length ≥ 1 := List.length_pos.mpr hB
    omega
  · intro i hi
    simp only [ResultMerger.appendToFile]
    exact List.getElem?_append_left hi
  · intro j hj1 hj2
    simp only [ResultMerger.appendToFile]
    rw [List.getElem?_append_right (by omega)]
    rw [List.getElem?_map, List.getElem?_drop]
    have hidx : 1 + (A.timeSteps.length + j - 1 - A.timeSteps.length) = j := by omega
    rw [hidx]

/-- C7 witness file A: two steps. -/
def exampleFileA : DfsFile :=
  { timeSteps := [⟨0, [[1, 2]]⟩, ⟨60, [[3, 4]]⟩] }

/-- C7 witness file B: two steps, the first equal in data to A's last. -/
def exampleFileB : DfsFile :=
  { timeSteps := [⟨0, [[3, 4]]⟩, ⟨60, [[5, 6]]⟩] }

/-- Witness for C7 at two concrete two-step files. -/
theorem regular_merge_two_files_witness :
    ∃ C, ResultMerger.mergeFiles [exampleFileA, exampleFileB] = some C ∧
      C.timeSteps.length
        = exampleFileA.timeSteps.length + exampleFileB.timeSteps.length - 1 ∧
      (∀ i < exampleFileA.timeSteps.length,
        C.timeSteps[i]? = exampleFileA.timeSteps[i]?) ∧
      (∀ j, 1 ≤ j → j < exampleFileB.timeSteps.length →
        C.timeSteps[exampleFileA.timeSteps.length + j - 1]? =
          (exampleFileB.timeSteps[j]?).map fun s =>
            { s with time := exampleFileA.timeSpan + s.time }) :=
  regular_merge_two_files exampleFileA exampleFileB
    (by decide) (by decide) (by decide) (by decide)

/-! ## Entry maps and derived-quantity lookup (`LTSResultMerger.cs`) -/

/-- Helper for `string.Contains`: does the needle occur as a prefix of any
suffix of the haystack? -/
def containsSubAux (needle : List Char) : List Char → Bool
  | [] => needle.isEmpty
  | c :: rest => needle.isPrefixOf (c :: rest) || containsSubAux needle rest

/-- C# `string.Contains(needle)`. -/
def containsSubstring (haystack needle : String) : Bool :=
  containsSubAux needle.toList haystack.toList

/-- `LTSResultMergerExtreme.IsDerivedQuantity`: the description contains
", Time". -/
def LTSResultMergerExtreme.isDerivedQuantity (quantity : Quantity) : Bool :=
  containsSubstring quantity.description ", Time"

/-- `LTSResultMergerPeriodic.IsDerivedQuantity`: the description contains
", Count" or ", Duration". -/
def LTSResultMergerPeriodic.isDerivedQuantity (quantity : Quantity) : Bool :=
  containsSubstring quantity.description ", Count"
    || containsSubstring quantity.description ", Duration"

/-- C# `Dictionary`, modelled as an insertion-ordered association list.
Looking up a missing key yields `none`, the model of the indexer's
`KeyNotFoundException`. -/
def lookupId {α : Type} (m : List (DataEntryId × α)) (k : DataEntryId) : Option α :=
  match m with
  | [] => none
  | (k2, v) :: rest => if k2 = k then some v else lookupId rest k

/-- In-place mutation of the value stored under a key (the C# code obtains
the `List` object from the dictionary and mutates it). -/
def updateId {α : Type} (m : List (DataEntryId × α)) (k : DataEntryId) (f : α → α) :
    List (DataEntryId × α) :=
  match m with
  | [] => []
  | (k2, v) :: rest => if k2 = k then (k2, f v) :: rest else (k2, v) :: updateId rest k f

/-- `CreateMapIdToDataEntry` (`ToDictionary` keyed on `EntryId`). -/
def createMapIdToDataEntry (rd : ResultData) (dataEntries : List DataEntry) :
    List (DataEntryId × DataEntry) :=
  dataEntries.map fun de => (rd.entryId de, de)

/-- `CreateMapIdToResultEvents`: a fresh empty event list per entry
(Extreme event type). -/
def createMapIdToResultEvents (rd : ResultData) (dataEntries : List DataEntry) :
    List (DataEntryId × List LTSResultEvent) :=
  dataEntries.map fun de => (rd.entryId de, ([] : List LTSResultEvent))

/-- `CreateMapIdToResultEvents`, at the Periodic event type (the C# list is
heterogeneous; the two policies only ever store their own event kind). -/
def createMapIdToResultEventsPeriodic (rd : ResultData) (dataEntries : List DataEntry) :
    List (DataEntryId × List LTSResultEventPeriodic) :=
  dataEntries.map fun de => (rd.entryId de, ([] : List LTSResultEventPeriodic))

/-- `LTSResultMerger.Create(quantity, extra, ...)`: a quantity with "extra"
added to id and description.  The decoration itself comes from the external
`ExtraForQuantities` class; modelled from the spec (§4.2) and the source
doc examples (id gains `extra` — DischargeMaximum → DischargeMaximumTime —
and the description gains ", " ++ extra, which is what the
`IsDerivedQuantity` predicates test for). -/
def LTSResultMerger.createQuantity (quantity : Quantity) (extra : String) : Quantity :=
  { id := quantity.id ++ extra
    description := quantity.description ++ ", " ++ extra }

/-- `LTSResultMerger.GetDataEntryForDerivedQuantity`: build the sibling
entry id for the derived quantity and look it up in the given map.
`none` models the `KeyNotFoundException` the dictionary indexer throws
when the derived quantity is absent. -/
def LTSResultMerger.getDataEntryForDerivedQuantity (extraId : String) (rd : ResultData)
    (dataEntry : DataEntry) (mapIdToDataEntry : List (DataEntryId × DataEntry)) :
    Option DataEntry :=
  let quantity := (rd.item dataEntry).quantity
  let quantityTime := LTSResultMerger.createQuantity quantity extraId
  let entryId := rd.entryId dataEntry
  let entryIdDerived := DataEntryId.withQuantityId quantityTime.id entryId
  lookupId mapIdToDataEntry entryIdDerived

/-- The C# `(int)` cast of a double: truncation toward zero (Lean's `Int`
division is T-division). -/
def truncToInt (q : ℚ) : Int := q.num / (q.den : Int)

/-! ## MergeDataEntry / MergeDataEntries -/

/-- `LTSResultMergerExtreme.MergeDataEntry`: skip derived quantities; look
up the "Time" companion in the same file's map — a missing key raises
`KeyNotFoundException` (the subsequent C# `dataItemTime == null` check is
unreachable, the indexer has already thrown) — then append one event per
time step, pairing the primary value with the companion's time value, to
the accumulated list of this entry id.  Looking up an accumulator key that
the first file did not declare likewise raises. -/
def LTSResultMergerExtreme.mergeDataEntry (rdFile : ResultData) (dataEntry : DataEntry)
    (mapIdToDataEntry : List (DataEntryId × DataEntry))
    (events : List (DataEntryId × List LTSResultEvent)) :
    Except MergeError (List (DataEntryId × List LTSResultEvent)) :=
  let dataItem := rdFile.item dataEntry
  if LTSResultMergerExtreme.isDerivedQuantity dataItem.quantity then .ok events
  else
    match LTSResultMerger.getDataEntryForDerivedQuantity "Time" rdFile dataEntry
        mapIdToDataEntry with
    | none => .error .keyNotFound
    | some dataEntryTime =>
      let dataItemTime := rdFile.item dataEntryTime
      match lookupId events (rdFile.entryId dataEntry) with
      | none => .error .keyNotFound
      | some _ =>
        let elementIndex := dataEntry.elementIndex
        let newEvents := (List.range dataItem.numberOfTimeSteps).map fun j =>
          ({ Value := dataItem.getValue j elementIndex
             Time := dataItemTime.getValue j elementIndex } : LTSResultEvent)
        .ok (updateId events (rdFile.entryId dataEntry) fun l => l ++ newEvents)

/-- `LTSResultMergerPeriodic.MergeDataEntry`: skip derived quantities;
global items have no Count/Duration companions (the `?? 0` defaults apply),
for all other items the companion lookups raise `KeyNotFoundException`
when absent (making the later `null` test dead code); then append one
periodic event per time step (value, truncated count, duration, and the
file's time-axis entry as the period). -/
def LTSResultMergerPeriodic.mergeDataEntry (rdFile : ResultData) (dataEntry : DataEntry)
    (mapIdToDataEntry : List (DataEntryId × DataEntry))
    (events : List (DataEntryId × List LTSResultEventPeriodic)) :
    Except MergeError (List (DataEntryId × List LTSResultEventPeriodic)) :=
  let dataItem := rdFile.item dataEntry
  if LTSResultMergerPeriodic.isDerivedQuantity dataItem.quantity then .ok events
  else if dataItem.itemTypeGroup = ItemTypeGroup.GlobalItem then
    match lookupId events (rdFile.entryId dataEntry) with
    | none => .error .keyNotFound
    | some _ =>
      let elementIndex := dataEntry.elementIndex
      let newEvents := (List.range dataItem.numberOfTimeSteps).map fun j =>
        ({ Value := dataItem.getValue j elementIndex
           Time := 0
           Count := 0
           Duration := 0
           TimePeriod := rdFile.timesList.getD j ⟨0⟩ } : LTSResultEventPeriodic)
      .ok (updateId events (rdFile.entryId dataEntry) fun l => l ++ newEvents)
  else
    match LTSResultMerger.getDataEntryForDerivedQuantity "Count" rdFile dataEntry
        mapIdToDataEntry with
    | none => .error .keyNotFound
    | some dataEntryCount =>
      match LTSResultMerger.getDataEntryForDerivedQuantity "Duration" rdFile dataEntry
          mapIdToDataEntry with
      | none => .error .keyNotFound
      | some dataEntryDuration =>
        match lookupId events (rdFile.entryId dataEntry) with
        | none => .error .keyNotFound
        | some _ =>
          let elementIndex := dataEntry.elementIndex
          let dataItemCount := rdFile.item dataEntryCount
          let dataItemDuration := rdFile.item dataEntryDuration
          let newEvents := (List.range dataItem.numberOfTimeSteps).map fun j =>
            ({ Value := dataItem.getValue j elementIndex
               Time := 0
               Count := truncToInt (dataItemCount.getValue j elementIndex)
               Duration := dataItemDuration.getValue j elementIndex
               TimePeriod := rdFile.timesList.getD j ⟨0⟩ } : LTSResultEventPeriodic)
          .ok (updateId events (rdFile.entryId dataEntry) fun l => l ++ newEvents)

/-- `LTSResultMerger.MergeDataEntries`, Extreme policy: for each input file
re-enumerate its entries, build the per-file id map, and merge every entry
in. -/
def LTSResultMergerExtreme.mergeDataEntries (resultDataCollection : List ResultData)
    (events0 : List (DataEntryId × List LTSResultEvent)) :
    Except MergeError (List (DataEntryId × List LTSResultEvent)) :=
  resultDataCollection.foldlM
    (fun events rdFile =>
      let dataEntries := rdFile.getAllDataEntries
      let mapIdToDataEntry := createMapIdToDataEntry rdFile dataEntries
      dataEntries.foldlM
        (fun ev de => LTSResultMergerExtreme.mergeDataEntry rdFile de mapIdToDataEntry ev)
        events)
    events0

/-- `LTSResultMerger.MergeDataEntries`, Periodic policy. -/
def LTSResultMergerPeriodic.mergeDataEntries (resultDataCollection : List ResultData)
    (events0 : List (DataEntryId × List LTSResultEventPeriodic)) :
    Except MergeError (List (DataEntryId × List LTSResultEventPeriodic)) :=
  resultDataCollection.foldlM
    (fun events rdFile =>
      let dataEntries := rdFile.getAllDataEntries
      let mapIdToDataEntry := createMapIdToDataEntry rdFile dataEntries
      dataEntries.foldlM
        (fun ev de => LTSResultMergerPeriodic.mergeDataEntry rdFile de mapIdToDataEntry ev)
        events)
    events0

/-! ## UpdateResultData -/

/-- The write of one event of one entry in
`LTSResultMergerExtreme.UpdateResultData`: value into the entry, time into
the "Time" companion. -/
def LTSResultMergerExtreme.writeEventStep (dataEntry dataEntryTime : DataEntry)
    (evs : List LTSResultEvent) (rd2 : ResultData) (i : Nat) : ResultData :=
  let ev := evs.getD i default
  (rd2.setValue dataEntry i ev.Value).setValue dataEntryTime i ev.Time

/-- The per-entry body of `LTSResultMergerExtreme.UpdateResultData`:
entries with empty lists are skipped; otherwise the write target and its
"Time" companion are looked up (a missing key raises) and every event is
written by index in list order. -/
def LTSResultMergerExtreme.updateEntryStep
    (mapIdToDataEntry : List (DataEntryId × DataEntry))
    (rdAcc : ResultData) (p : DataEntryId × List LTSResultEvent) :
    Except MergeError ResultData :=
  if p.2.length = 0 then .ok rdAcc
  else
    match lookupId mapIdToDataEntry p.1 with
    | none => .error .keyNotFound
    | some dataEntry =>
      match LTSResultMerger.getDataEntryForDerivedQuantity "Time" rdAcc dataEntry
          mapIdToDataEntry with
      | none => .error .keyNotFound
      | some dataEntryTime =>
        .ok ((List.range p.2.length).foldl
          (LTSResultMergerExtreme.writeEventStep dataEntry dataEntryTime p.2) rdAcc)

/-- `LTSResultMergerExtreme.UpdateResultData`: for every entry with a
non-empty merged event list, write the events' values into the entry and
their times into the "Time" companion, by time-step index in list order.
Entries with empty lists are skipped. -/
def LTSResultMergerExtreme.updateResultData
    (mapIdToDataEntry : List (DataEntryId × DataEntry))
    (m : List (DataEntryId × List LTSResultEvent))
    (rd : ResultData) : Except MergeError ResultData :=
  m.foldlM (LTSResultMergerExtreme.updateEntryStep mapIdToDataEntry) rd

/-- The write of one event of one global entry in
`LTSResultMergerPeriodic.UpdateResultData` (no companions). -/
def LTSResultMergerPeriodic.writeEventStepGlobal (dataEntry : DataEntry)
    (evs : List LTSResultEventPeriodic) (rd2 : ResultData) (i : Nat) : ResultData :=
  let ev := evs.getD i default
  rd2.setValue dataEntry i ev.Value

/-- The write of one event of one non-global entry in
`LTSResultMergerPeriodic.UpdateResultData`: value, count and duration. -/
def LTSResultMergerPeriodic.writeEventStep (dataEntry dataEntryCount dataEntryDuration : DataEntry)
    (evs : List LTSResultEventPeriodic) (rd2 : ResultData) (i : Nat) : ResultData :=
  let ev := evs.getD i default
  ((rd2.setValue dataEntry i ev.Value).setValue
    dataEntryCount i (ev.Count : ℚ)).setValue dataEntryDuration i ev.Duration

/-- The per-entry body of `LTSResultMergerPeriodic.UpdateResultData`. -/
def LTSResultMergerPeriodic.updateEntryStep
    (mapIdToDataEntry : List (DataEntryId × DataEntry))
    (rdAcc : ResultData) (p : DataEntryId × List LTSResultEventPeriodic) :
    Except MergeError ResultData :=
  if p.2.length = 0 then .ok rdAcc
  else
    match lookupId mapIdToDataEntry p.1 with
    | none => .error .keyNotFound
    | some dataEntry =>
      if (rdAcc.item dataEntry).itemTypeGroup = ItemTypeGroup.GlobalItem then
        .ok ((List.range p.2.length).foldl
          (LTSResultMergerPeriodic.writeEventStepGlobal dataEntry p.2) rdAcc)
      else
        match LTSResultMerger.getDataEntryForDerivedQuantity "Count" rdAcc dataEntry
            mapIdToDataEntry with
        | none => .error .keyNotFound
        | some dataEntryCount =>
          match LTSResultMerger.getDataEntryForDerivedQuantity "Duration" rdAcc dataEntry
              mapIdToDataEntry with
          | none => .error .keyNotFound
          | some dataEntryDuration =>
            .ok ((List.range p.2.length).foldl
              (LTSResultMergerPeriodic.writeEventStep dataEntry dataEntryCount
                dataEntryDuration p.2) rdAcc)

/-- `LTSResultMergerPeriodic.UpdateResultData`: like the Extreme variant
but with Count/Duration companions, which global items do not have (their
writes are skipped via the null-conditional calls). -/
def LTSResultMergerPeriodic.updateResultData
    (mapIdToDataEntry : List (DataEntryId × DataEntry))
    (m : List (DataEntryId × List LTSResultEventPeriodic))
    (rd : ResultData) : Except MergeError ResultData :=
  m.foldlM (LTSResultMergerPeriodic.updateEntryStep mapIdToDataEntry) rd

/-! ## The full `Merge()` pipelines -/

/-- `LTSResultMerger.Merge()` with the Extreme policy: CreateMaps,
MergeDataEntries, SortResults, ProcessResults, UpdateTimesList,
UpdateResultData, in that order.  Returns the final (sorted, processed)
event map together with the destination file. -/
def LTSResultMergerExtreme.merge (resultDataCollection : List ResultData) :
    Except MergeError ((List (DataEntryId × List LTSResultEvent)) × ResultData) :=
  match resultDataCollection with
  | [] => .error .invalidOperation
  | rd :: _ => do
    let dataEntries := rd.getAllDataEntries
    let mapIdToDataEntry := createMapIdToDataEntry rd dataEntries
    let events0 := createMapIdToResultEvents rd dataEntries
    let m1 ← LTSResultMergerExtreme.mergeDataEntries resultDataCollection events0
    let m2 := LTSResultMergerExtreme.processResults (LTSResultMergerExtreme.sortResults m1)
    let rd2 ← LTSResultMergerExtreme.updateTimesList m2 rd
    let rd3 ← LTSResultMergerExtreme.updateResultData mapIdToDataEntry m2 rd2
    return (m2, rd3)

/-- `LTSResultMerger.Merge()` with the Periodic policy. -/
def LTSResultMergerPeriodic.merge (resultDataCollection : List ResultData) :
    Except MergeError ((List (DataEntryId × List LTSResultEventPeriodic)) × ResultData) :=
  match resultDataCollection with
  | [] => .error .invalidOperation
  | rd :: _ => do
    let dataEntries := rd.getAllDataEntries
    let mapIdToDataEntry := createMapIdToDataEntry rd dataEntries
    let events0 := createMapIdToResultEventsPeriodic rd dataEntries
    let m1 ← LTSResultMergerPeriodic.mergeDataEntries resultDataCollection events0
    let m2 := LTSResultMergerPeriodic.processResults (LTSResultMergerPeriodic.sortResults m1)
    let rd2 := LTSResultMergerPeriodic.updateTimesList m2 rd
    let rd3 ← LTSResultMergerPeriodic.updateResultData mapIdToDataEntry m2 rd2
    return (m2, rd3)

/-! ## Missing companion quantities (C3) -/

/-- An Extreme result file whose only entry is the primary quantity
"DischargeMaximum" with NO "DischargeMaximumTime" companion item. -/
def exampleFileC3 : ResultData :=
  { resultType := .LTSEvents
    timesList := [⟨0⟩]
    dataItems := [
      { quantity := ⟨"DischargeMaximum", "Discharge maximum"⟩
        itemTypeGroup := .NodeItem
        numberWithinGroup := 1
        numberOfElements := 1
        timeData := [[10]] }] }

/-- A Periodic (monthly) result file whose only entry is a non-global
primary quantity with no "Count"/"Duration" companion items. -/
def exampleFileC3P : ResultData :=
  { resultType := .LTSMonthly
    timesList := [⟨0⟩]
    dataItems := [
      { quantity := ⟨"DischargeIntegratedMonthly", "Discharge integrated monthly"⟩
        itemTypeGroup := .NodeItem
        numberWithinGroup := 1
        numberOfElements := 1
        timeData := [[10]] }] }

/-- C3 (code behavior at the claim's situation): when a primary entry's
expected companion derived quantity is absent from a source file's entry
map, the merge does NOT skip that entry — the dictionary indexer inside
`GetDataEntryForDerivedQuantity` raises `KeyNotFoundException`, which
aborts the whole merge (the `dataItemTime == null` / `dataItemCount ==
null` guards that were meant to skip are unreachable).  Both policies
shown on concrete one-entry files. -/
theorem missing_companion_aborts_merge :
    LTSResultMergerExtreme.merge [exampleFileC3] = .error .keyNotFound ∧
    LTSResultMergerPeriodic.merge [exampleFileC3P] = .error .keyNotFound := by
  constructor <;> rfl

/-! ## Frame properties of UpdateResultData (C10) -/

theorem entryId_congr (rdA rdB : ResultData) (de : DataEntry)
    (h : (rdA.item de).meta = (rdB.item de).meta) :
    rdA.entryId de = rdB.entryId de := by
  simp only [DataItem.meta, Prod.mk.injEq] at h
  simp [ResultData.entryId, h.1, h.2.1, h.2.2.1]

/-- A derived-quantity lookup only reads the written-through item's
metadata, so it is invariant under `SetValue` mutations of the
destination. -/
theorem getDerived_congr (extraId : String) (de : DataEntry)
    (dMap : List (DataEntryId × DataEntry)) (rdA rdB : ResultData)
    (h : (rdA.item de).meta = (rdB.item de).meta) :
    LTSResultMerger.getDataEntryForDerivedQuantity extraId rdA de dMap
      = LTSResultMerger.getDataEntryForDerivedQuantity extraId rdB de dMap := by
  have hq : (rdA.item de).quantity = (rdB.item de).quantity := by
    simp only [DataItem.meta, Prod.mk.injEq] at h
    exact h.1
  simp only [LTSResultMerger.getDataEntryForDerivedQuantity, hq,
    entryId_congr rdA rdB de h]

theorem foldl_invariant {β : Type} (step : ResultData → β → ResultData)
    (P : ResultData → Prop) (l : List β)
    (hstep : ∀ r b, P r → P (step r b)) :
    ∀ r, P r → P (l.foldl step r) := by
  induction l with
  | nil => exact fun r hr => hr
  | cons b rest ih =>
    intro r hr
    rw [List.foldl_cons]
    exact ih (step r b) (hstep r b hr)

theorem except_bind_ok {α β : Type} {x : Except MergeError α}
    {g : α → Except MergeError β} {out : β}
    (h : (x >>= g) = .ok out) : ∃ a, x = .ok a ∧ g a = .ok out := by
  cases x with
  | error e => simp [Bind.bind, Except.bind] at h
  | ok a =>
    refine ⟨a, rfl, ?_⟩
    simpa [Bind.bind, Except.bind] using h

theorem foldlM_invariant {β : Type} (step : ResultData → β → Except MergeError ResultData)
    (P : ResultData → Prop) (l : List β) :
    (∀ r b r2, b ∈ l → P r → step r b = .ok r2 → P r2) →
    ∀ r rOut, P r → l.foldlM step r = .ok rOut → P rOut := by
  induction l with
  | nil =>
    intro _ r rOut hr h
    rw [List.foldlM_nil] at h
    cases h
    exact hr
  | cons b rest ih =>
    intro hstep r rOut hr h
    rw [List.foldlM_cons] at h
    rcases except_bind_ok h with ⟨r1, hb, hrest⟩
    have hr1 := hstep r b r1 (List.mem_cons_self ..) hr hb
    exact ih (fun r0 b0 r02 hb0 => hstep r0 b0 r02 (List.mem_cons_of_mem _ hb0)) r1 rOut hr1 hrest

/-- The state invariant used for the UpdateResultData frame proofs:
all item metadata is as in the pre-state, and the data item at index `k`
is untouched. -/
def FrameInv (rd : ResultData) (k : Nat) (r : ResultData) : Prop :=
  (∀ d2 : DataEntry, (r.item d2).meta = (rd.item d2).meta) ∧
    r.dataItems.getD k defaultItem = rd.dataItems.getD k defaultItem

theorem frameInv_setValue (rd : ResultData) (k : Nat) (r : ResultData)
    (de : DataEntry) (i : Nat) (v : ℚ) (hk : de.itemIndex ≠ k)
    (hr : FrameInv rd k r) : FrameInv rd k (r.setValue de i v) := by
  constructor
  · intro d2
    rw [setValue_item_meta]
    exact hr.1 d2
  · rw [setValue_dataItems_getD_ne _ _ _ _ _ (fun h => hk h.symm)]
    exact hr.2

/-- C10: `UpdateResultData` (Extreme and Periodic) writes nothing through
an entry whose merged event list is empty: if the data item referenced by
such an entry (`de0`, at item index `k`) is neither the direct write
target of any entry with a non-empty list nor the companion
(Time / Count / Duration) target of one, then the destination's stored
time series for that item is left exactly as it was. -/
theorem updateResultData_empty_entry_frame
    (dMap : List (DataEntryId × DataEntry)) (rd : ResultData) (eid : DataEntryId)
    (de0 : DataEntry) (k : Nat)
    (hde0 : lookupId dMap eid = some de0) (hk : de0.itemIndex = k) :
    (∀ (m : List (DataEntryId × List LTSResultEvent)) (rdOut : ResultData),
      (eid, ([] : List LTSResultEvent)) ∈ m →
      LTSResultMergerExtreme.updateResultData dMap m rd = .ok rdOut →
      (∀ p ∈ m, p.2 ≠ [] → ∀ de, lookupId dMap p.1 = some de → de.itemIndex ≠ k) →
      (∀ p ∈ m, p.2 ≠ [] → ∀ de deT, lookupId dMap p.1 = some de →
        LTSResultMerger.getDataEntryForDerivedQuantity "Time" rd de dMap = some deT →
        deT.itemIndex ≠ k) →
      rdOut.dataItems.getD k defaultItem = rd.dataItems.getD k defaultItem) ∧
    (∀ (m : List (DataEntryId × List LTSResultEventPeriodic)) (rdOut : ResultData),
      (eid, ([] : List LTSResultEventPeriodic)) ∈ m →
      LTSResultMergerPeriodic.updateResultData dMap m rd = .ok rdOut →
      (∀ p ∈ m, p.2 ≠ [] → ∀ de, lookupId dMap p.1 = some de → de.itemIndex ≠ k) →
      (∀ p ∈ m, p.2 ≠ [] → ∀ de deC, lookupId dMap p.1 = some de →
        LTSResultMerger.getDataEntryForDerivedQuantity "Count" rd de dMap = some deC →
        deC.itemIndex ≠ k) →
      (∀ p ∈ m, p.2 ≠ [] → ∀ de deD, lookupId dMap p.1 = some de →
        LTSResultMerger.getDataEntryForDerivedQuantity "Duration" rd de dMap = some deD →
        deD.itemIndex ≠ k) →
      rdOut.dataItems.getD k defaultItem = rd.dataItems.getD k defaultItem) := by
  constructor
  · intro m rdOut _ h hdirect hcomp
    refine (foldlM_invariant (LTSResultMergerExtreme.updateEntryStep dMap)
      (FrameInv rd k) m ?_ rd rdOut ⟨fun _ => rfl, rfl⟩ h).2
    intro rdAcc p rd2 hp hP hst
    simp only [LTSResultMergerExtreme.updateEntryStep] at hst
    split at hst
    · cases hst
      exact hP
    · rename_i hlen
      have hne : p.2 ≠ [] := fun hnil => hlen (by rw [hnil]; rfl)
      split at hst
      · cases hst
      · rename_i de hlook
        split at hst
        · cases hst
        · rename_i deT hder
          cases hst
          have hdek : de.itemIndex ≠ k := hdirect p hp hne de hlook
          have hderRd : LTSResultMerger.getDataEntryForDerivedQuantity "Time" rd de dMap
              = some deT := by
            rw [← getDerived_congr "Time" de dMap rdAcc rd (hP.1 de)]
            exact hder
          have hdeTk : deT.itemIndex ≠ k := hcomp p hp hne de deT hlook hderRd
          refine foldl_invariant _ (FrameInv rd k) _ ?_ rdAcc hP
          intro r i hPr
          simp only [LTSResultMergerExtreme.writeEventStep]
          exact frameInv_setValue rd k _ _ _ _ hdeTk (frameInv_setValue rd k _ _ _ _ hdek hPr)
  · intro m rdOut _ h hdirect hcompC hcompD
    refine (foldlM_invariant (LTSResultMergerPeriodic.updateEntryStep dMap)
      (FrameInv rd k) m ?_ rd rdOut ⟨fun _ => rfl, rfl⟩ h).2
    intro rdAcc p rd2 hp hP hst
    simp only [LTSResultMergerPeriodic.updateEntryStep] at hst
    split at hst
    · cases hst
      exact hP
    · rename_i hlen
      have hne : p.2 ≠ [] := fun hnil => hlen (by rw [hnil]; rfl)
      split at hst
      · cases hst
      · rename_i de hlook
        have hdek : de.itemIndex ≠ k := hdirect p hp hne de hlook
        split at hst
        · cases hst
          refine foldl_invariant _ (FrameInv rd k) _ ?_ rdAcc hP
          intro r i hPr
          simp only [LTSResultMergerPeriodic.writeEventStepGlobal]
          exact frameInv_setValue rd k _ _ _ _ hdek hPr
        · split at hst
          · cases hst
          · rename_i deC hderC
            split at hst
            · cases hst
            · rename_i deD hderD
              cases hst
              have hderCRd : LTSResultMerger.getDataEntryForDerivedQuantity "Count" rd de dMap
                  = some deC := by
                rw [← getDerived_congr "Count" de dMap rdAcc rd (hP.1 de)]
                exact hderC
              have hderDRd : LTSResultMerger.getDataEntryForDerivedQuantity "Duration" rd de dMap
                  = some deD := by
                rw [← getDerived_congr "Duration" de dMap rdAcc rd (hP.1 de)]
                exact hderD
              have hdeCk : deC.itemIndex ≠ k := hcompC p hp hne de deC hlook hderCRd
              have hdeDk : deD.itemIndex ≠ k := hcompD p hp hne de deD hlook hderDRd
              refine foldl_invariant _ (FrameInv rd k) _ ?_ rdAcc hP
              intro r i hPr
              simp only [LTSResultMergerPeriodic.writeEventStep]
              exact frameInv_setValue rd k _ _ _ _ hdeDk
                (frameInv_setValue rd k _ _ _ _ hdeCk
                  (frameInv_setValue rd k _ _ _ _ hdek hPr))

/-- C10 witness destination: a primary/companion item pair plus a second
primary/companion pair whose entry stays empty. -/
def exampleRdC10 : ResultData :=
  { resultType := .LTSEvents
    timesList := [⟨0⟩]
    dataItems := [
      { quantity := ⟨"DischargeMaximum", "Discharge maximum"⟩
        itemTypeGroup := .NodeItem
        numberWithinGroup := 1
        numberOfElements := 1
        timeData := [[10]] },
      { quantity := ⟨"DischargeMaximumTime", "Discharge maximum, Time"⟩
        itemTypeGroup := .NodeItem
        numberWithinGroup := 1
        numberOfElements := 1
        timeData := [[5]] },
      { quantity := ⟨"WaterLevelMaximum", "Water level maximum"⟩
        itemTypeGroup := .NodeItem
        numberWithinGroup := 2
        numberOfElements := 1
        timeData := [[7]] },
      { quantity := ⟨"WaterLevelMaximumTime", "Water level maximum, Time"⟩
        itemTypeGroup := .NodeItem
        numberWithinGroup := 2
        numberOfElements := 1
        timeData := [[3]] }] }

/-- C10 witness id-to-entry map of the destination. -/
def exampleDMapC10 : List (DataEntryId × DataEntry) :=
  createMapIdToDataEntry exampleRdC10 exampleRdC10.getAllDataEntries

/-- C10 witness id of the entry with the empty merged list. -/
def exampleEidC10 : DataEntryId := ⟨"WaterLevelMaximum", .NodeItem, 2, 0⟩

/-- C10 witness event map: one written entry, one empty entry. -/
def exampleMC10 : List (DataEntryId × List LTSResultEvent) :=
  [(⟨"DischargeMaximum", .NodeItem, 1, 0⟩, [⟨10, 5⟩]), (exampleEidC10, [])]

/-- C10 witness periodic event map: only the empty entry. -/
def exampleMC10P : List (DataEntryId × List LTSResultEventPeriodic) :=
  [(exampleEidC10, [])]

/-- Witness for C10: on the concrete scenario both `UpdateResultData`
variants leave the empty entry's data item (index 2) untouched. -/
theorem updateResultData_empty_entry_frame_witness :
    (exampleRdC10.dataItems.getD 2 defaultItem
      = exampleRdC10.dataItems.getD 2 defaultItem) ∧
    (exampleRdC10.dataItems.getD 2 defaultItem
      = exampleRdC10.dataItems.getD 2 defaultItem) := by
  have hbase := updateResultData_empty_entry_frame exampleDMapC10 exampleRdC10
    exampleEidC10 ⟨2, 0⟩ 2 (by decide) rfl
  constructor
  · refine hbase.1 exampleMC10 exampleRdC10 (by decide) rfl ?_ ?_
    · intro p hp hne de hlook
      rcases List.mem_cons.mp hp with rfl | hp2
      · have hde : de = ⟨0, 0⟩ := by
          have h2 : some (⟨0, 0⟩ : DataEntry) = some de := hlook
          injection h2 with h3
          exact h3.symm
        rw [hde]
        decide
      · rcases List.mem_singleton.mp hp2 with rfl
        exact absurd rfl hne
    · intro p hp hne de deT hlook hder
      rcases List.mem_cons.mp hp with rfl | hp2
      · have hde : de = ⟨0, 0⟩ := by
          have h2 : some (⟨0, 0⟩ : DataEntry) = some de := hlook
          injection h2 with h3
          exact h3.symm
        subst hde
        have hdeT : deT = ⟨1, 0⟩ := by
          have h2 : some (⟨1, 0⟩ : DataEntry) = some deT := hder
          injection h2 with h3
          exact h3.symm
        rw [hdeT]
        decide
      · rcases List.mem_singleton.mp hp2 with rfl
        exact absurd rfl hne
  · refine hbase.2 exampleMC10P exampleRdC10 (by decide) rfl ?_ ?_ ?_ <;>
      (intro p hp hne
       rcases List.mem_singleton.mp hp with rfl
       exact absurd rfl hne)

/-! ## Association list (dictionary) lemmas -/

theorem lookupId_updateId_self {α : Type} (m : List (DataEntryId × α)) (k : DataEntryId)
    (f : α → α) (v : α) (h : lookupId m k = some v) :
    lookupId (updateId m k f) k = some (f v) := by
  induction m with
  | nil => simp [lookupId] at h
  | cons q rest ih =>
    rcases q with ⟨k2, v2⟩
    by_cases hk : k2 = k
    · simp only [lookupId, if_pos hk] at h
      cases h
      simp [updateId, lookupId, if_pos hk]
    · simp only [lookupId, if_neg hk] at h
      simp only [updateId, if_neg hk, lookupId]
      exact ih h

theorem lookupId_updateId_ne {α : Type} (m : List (DataEntryId × α)) (k k2 : DataEntryId)
    (f : α → α) (h : k2 ≠ k) :
    lookupId (updateId m k f) k2 = lookupId m k2 := by
  induction m with
  | nil => rfl
  | cons q rest ih =>
    rcases q with ⟨k3, v3⟩
    by_cases hk : k3 = k
    · have hne : ¬(k3 = k2) := by
        rw [hk]
        exact fun hh => h hh.symm
      simp only [updateId, if_pos hk, lookupId, if_neg hne]
    · simp only [updateId, if_neg hk, lookupId]
      by_cases hk2 : k3 = k2
      · rw [if_pos hk2, if_pos hk2]
      · rw [if_neg hk2, if_neg hk2]
        exact ih

theorem updateId_keys {α : Type} (m : List (DataEntryId × α)) (k : DataEntryId) (f : α → α) :
    (updateId m k f).map (fun p => p.1) = m.map (fun p => p.1) := by
  induction m with
  | nil => rfl
  | cons q rest ih =>
    rcases q with ⟨k2, v2⟩
    by_cases hk : k2 = k
    · simp [updateId, if_pos hk]
    · simp [updateId, if_neg hk, ih]

theorem lookup_of_mem_nodup {α : Type} (m : List (DataEntryId × α))
    (hnd : (m.map (fun p => p.1)).Pairwise (· ≠ ·))
    (p : DataEntryId × α) (hp : p ∈ m) :
    lookupId m p.1 = some p.2 := by
  induction m with
  | nil => cases hp
  | cons q rest ih =>
    rcases List.mem_cons.mp hp with rfl | hp2
    · simp [lookupId]
    · have hne : q.1 ≠ p.1 :=
        (List.pairwise_cons.mp hnd).1 p.1 (List.mem_map_of_mem _ hp2)
      rcases q with ⟨k2, v2⟩
      simp only [lookupId, if_neg hne]
      exact ih (List.pairwise_cons.mp hnd).2 hp2

theorem mem_of_lookup {α : Type} (m : List (DataEntryId × α)) (k : DataEntryId) (v : α)
    (h : lookupId m k = some v) : (k, v) ∈ m := by
  induction m with
  | nil => simp [lookupId] at h
  | cons q rest ih =>
    rcases q with ⟨k2, v2⟩
    by_cases hk : k2 = k
    · simp only [lookupId, if_pos hk] at h
      cases h
      rw [hk]
      exact List.mem_cons_self ..
    · simp only [lookupId, if_neg hk] at h
      exact List.mem_cons_of_mem _ (ih h)

theorem lookupId_map_values {α β : Type} (m : List (DataEntryId × α)) (g : α → β)
    (k : DataEntryId) :
    lookupId (m.map fun p => (p.1, g p.2)) k = (lookupId m k).map g := by
  induction m with
  | nil => rfl
  | cons q rest ih =>
    rcases q with ⟨k2, v2⟩
    by_cases hk : k2 = k
    · simp [lookupId, if_pos hk]
    · simp only [List.map_cons, lookupId, if_neg hk]
      exact ih

theorem lookup_map_const_of_mem {α : Type} (rd : ResultData) (entries : List DataEntry)
    (de : DataEntry) (h : de ∈ entries) (c : α) :
    lookupId (entries.map fun d => (rd.entryId d, c)) (rd.entryId de) = some c := by
  induction entries with
  | nil => cases h
  | cons d rest ih =>
    by_cases h2 : rd.entryId d = rd.entryId de
    · simp [lookupId, if_pos h2]
    · rcases List.mem_cons.mp h with rfl | hm
      · exact absurd rfl h2
      · simp only [List.map_cons, lookupId, if_neg h2]
        exact ih hm

/-! ## Single-file merge analysis (C9) -/

/-- The event sequence `LTSResultMergerExtreme.MergeDataEntry` reads for a
primary entry from one file: per time step, the entry's own value paired
with the "Time" companion's value — i.e. the file's own data for that
entry. -/
def extremeEventsOf (rdFile : ResultData) (de deT : DataEntry) : List LTSResultEvent :=
  (List.range (rdFile.item de).numberOfTimeSteps).map fun j =>
    { Value := (rdFile.item de).getValue j de.elementIndex
      Time := (rdFile.item deT).getValue j de.elementIndex }

/-- Effect of folding `LTSResultMergerExtreme.mergeDataEntry` over a list
of entries with pairwise-distinct ids: the fold succeeds, keys are
unchanged, ids outside the list keep their accumulated value, derived
entries are skipped, and each primary entry's list gets exactly its own
file data appended. -/
theorem LTSResultMergerExtreme.mergeDataEntry_fold_extreme (rdFile : ResultData)
    (mapFile : List (DataEntryId × DataEntry)) (todo : List DataEntry) :
    ∀ ev : List (DataEntryId × List LTSResultEvent),
    (todo.map (fun de => rdFile.entryId de)).Pairwise (· ≠ ·) →
    (∀ de ∈ todo, LTSResultMergerExtreme.isDerivedQuantity (rdFile.item de).quantity = false →
      (LTSResultMerger.getDataEntryForDerivedQuantity "Time" rdFile de mapFile).isSome) →
    (∀ de ∈ todo, (lookupId ev (rdFile.entryId de)).isSome) →
    ∃ evOut,
      todo.foldlM (fun e de => LTSResultMergerExtreme.mergeDataEntry rdFile de mapFile e) ev
        = .ok evOut ∧
      evOut.map (fun p => p.1) = ev.map (fun p => p.1) ∧
      (∀ k, k ∉ todo.map (fun de => rdFile.entryId de) → lookupId evOut k = lookupId ev k) ∧
      (∀ de ∈ todo,
        LTSResultMergerExtreme.isDerivedQuantity (rdFile.item de).quantity = true →
        lookupId evOut (rdFile.entryId de) = lookupId ev (rdFile.entryId de)) ∧
      (∀ de ∈ todo, ∀ deT,
        LTSResultMergerExtreme.isDerivedQuantity (rdFile.item de).quantity = false →
        LTSResultMerger.getDataEntryForDerivedQuantity "Time" rdFile de mapFile = some deT →
        lookupId evOut (rdFile.entryId de)
          = (lookupId ev (rdFile.entryId de)).map (· ++ extremeEventsOf rdFile de deT)) := by
  induction todo with
  | nil =>
    intro ev _ _ _
    exact ⟨ev, rfl, rfl, fun k _ => rfl, fun de h => absurd h (List.not_mem_nil de),
      fun de h => absurd h (List.not_mem_nil de)⟩
  | cons de rest ih =>
    intro ev hnd hcomp hinit
    have hndrest : (rest.map (fun d => rdFile.entryId d)).Pairwise (· ≠ ·) :=
      (List.pairwise_cons.mp (by simpa using hnd)).2
    have hheadne : ∀ de2 ∈ rest, rdFile.entryId de ≠ rdFile.entryId de2 := by
      intro de2 hde2
      exact (List.pairwise_cons.mp (by simpa using hnd)).1 (rdFile.entryId de2)
        (List.mem_map_of_mem _ hde2)
    cases hd : LTSResultMergerExtreme.isDerivedQuantity (rdFile.item de).quantity with
    | true =>
      have hstep : LTSResultMergerExtreme.mergeDataEntry rdFile de mapFile ev = .ok ev := by
        simp [LTSResultMergerExtreme.mergeDataEntry, hd]
      have hred :
          (de :: rest).foldlM
            (fun e d => LTSResultMergerExtreme.mergeDataEntry rdFile d mapFile e) ev
          = rest.foldlM
            (fun e d => LTSResultMergerExtreme.mergeDataEntry rdFile d mapFile e) ev := by
        rw [List.foldlM_cons, hstep]
        rfl
      rcases ih ev hndrest
        (fun d hd2 => hcomp d (List.mem_cons_of_mem _ hd2))
        (fun d hd2 => hinit d (List.mem_cons_of_mem _ hd2)) with
        ⟨evOut, hfold, hkeys, hother, hderInd, hprimInd⟩
      refine ⟨evOut, by rw [hred]; exact hfold, hkeys, ?_, ?_, ?_⟩
      · intro k hk
        refine hother k ?_
        intro hmem
        exact hk (by simpa using Or.inr (by simpa using hmem))
      · intro de2 hde2 hd2
        rcases List.mem_cons.mp hde2 with rfl | hde2r
        · exact hother (rdFile.entryId de2)
            (by
              intro hmem
              rcases List.mem_map.mp hmem with ⟨d3, hd3, hid3⟩
              exact hheadne d3 hd3 hid3.symm)
        · exact hderInd de2 hde2r hd2
      · intro de2 hde2 deT hd2 hder2
        rcases List.mem_cons.mp hde2 with rfl | hde2r
        · rw [hd] at hd2
          cases hd2
        · exact hprimInd de2 hde2r deT hd2 hder2
    | false =>
      rcases Option.isSome_iff_exists.mp (hcomp de (List.mem_cons_self ..) hd) with ⟨deT, hder⟩
      rcases Option.isSome_iff_exists.mp (hinit de (List.mem_cons_self ..)) with ⟨v0, hv0⟩
      have hstep : LTSResultMergerExtreme.mergeDataEntry rdFile de mapFile ev
          = .ok (updateId ev (rdFile.entryId de) (· ++ extremeEventsOf rdFile de deT)) := by
        simp [LTSResultMergerExtreme.mergeDataEntry, hd, hder, hv0, extremeEventsOf]
      have hred :
          (de :: rest).foldlM
            (fun e d => LTSResultMergerExtreme.mergeDataEntry rdFile d mapFile e) ev
          = rest.foldlM
            (fun e d => LTSResultMergerExtreme.mergeDataEntry rdFile d mapFile e)
            (updateId ev (rdFile.entryId de) (· ++ extremeEventsOf rdFile de deT)) := by
        rw [List.foldlM_cons, hstep]
        rfl
      set ev1 := updateId ev (rdFile.entryId de) (· ++ extremeEventsOf rdFile de deT) with hev1
      have hlook1self : lookupId ev1 (rdFile.entryId de)
          = some (v0 ++ extremeEventsOf rdFile de deT) :=
        lookupId_updateId_self ev (rdFile.entryId de) _ v0 hv0
      have hlook1ne : ∀ k, k ≠ rdFile.entryId de → lookupId ev1 k = lookupId ev k :=
        fun k hk => lookupId_updateId_ne ev (rdFile.entryId de) k _ hk
      rcases ih ev1 hndrest
        (fun d hd2 => hcomp d (List.mem_cons_of_mem _ hd2))
        (fun d hd2 => by
          rw [hlook1ne (rdFile.entryId d) (fun hh => hheadne d hd2 hh.symm)]
          exact hinit d (List.mem_cons_of_mem _ hd2)) with
        ⟨evOut, hfold, hkeys, hother, hderInd, hprimInd⟩
      have hkeys2 : evOut.map (fun p => p.1) = ev.map (fun p => p.1) := by
        rw [hkeys, hev1, updateId_keys]
      have hheadnotrest : rdFile.entryId de ∉ rest.map (fun d => rdFile.entryId d) := by
        intro hmem
        rcases List.mem_map.mp hmem with ⟨d3, hd3, hid3⟩
        exact hheadne d3 hd3 hid3.symm
      refine ⟨evOut, by rw [hred]; exact hfold, hkeys2, ?_, ?_, ?_⟩
      · intro k hk
        have hk1 : k ∉ rest.map (fun d => rdFile.entryId d) := by
          intro hmem
          exact hk (by simpa using Or.inr (by simpa using hmem))
        have hk2 : k ≠ rdFile.entryId de := by
          intro hh
          exact hk (by simpa using Or.inl hh)
        rw [hother k hk1, hlook1ne k hk2]
      · intro de2 hde2 hd2
        rcases List.mem_cons.mp hde2 with rfl | hde2r
        · rw [hd] at hd2
          cases hd2
        · rw [hderInd de2 hde2r hd2,
            hlook1ne (rdFile.entryId de2) (fun hh => hheadne de2 hde2r hh.symm)]
      · intro de2 hde2 deT2 hd2 hder2
        rcases List.mem_cons.mp hde2 with rfl | hde2r
        · have hdeT : deT2 = deT := by
            rw [hder] at hder2
            cases hder2
            rfl
          subst hdeT
          rw [hother (rdFile.entryId de2) hheadnotrest, hlook1self, hv0]
          rfl
        · rw [hprimInd de2 hde2r deT2 hd2 hder2,
            hlook1ne (rdFile.entryId de2) (fun hh => hheadne de2 hde2r hh.symm)]

/-- The event sequence `LTSResultMergerPeriodic.MergeDataEntry` reads for a
global primary entry (no Count/Duration companions, `?? 0` defaults). -/
def periodicGlobalEventsOf (rdFile : ResultData) (de : DataEntry) :
    List LTSResultEventPeriodic :=
  (List.range (rdFile.item de).numberOfTimeSteps).map fun j =>
    { Value := (rdFile.item de).getValue j de.elementIndex
      Time := 0
      Count := 0
      Duration := 0
      TimePeriod := rdFile.timesList.getD j ⟨0⟩ }

/-- The event sequence `LTSResultMergerPeriodic.MergeDataEntry` reads for a
non-global primary entry: value, truncated companion count, companion
duration, and the file's time-axis entry as the period. -/
def periodicEventsOf (rdFile : ResultData) (de deC deD : DataEntry) :
    List LTSResultEventPeriodic :=
  (List.range (rdFile.item de).numberOfTimeSteps).map fun j =>
    { Value := (rdFile.item de).getValue j de.elementIndex
      Time := 0
      Count := truncToInt ((rdFile.item deC).getValue j de.elementIndex)
      Duration := (rdFile.item deD).getValue j de.elementIndex
      TimePeriod := rdFile.timesList.getD j ⟨0⟩ }

/-- Periodic analogue of `mergeDataEntry_fold_extreme`. -/
theorem LTSResultMergerPeriodic.mergeDataEntry_fold_periodic (rdFile : ResultData)
    (mapFile : List (DataEntryId × DataEntry)) (todo : List DataEntry) :
    ∀ ev : List (DataEntryId × List LTSResultEventPeriodic),
    (todo.map (fun de => rdFile.entryId de)).Pairwise (· ≠ ·) →
    (∀ de ∈ todo, LTSResultMergerPeriodic.isDerivedQuantity (rdFile.item de).quantity = false →
      ¬(rdFile.item de).itemTypeGroup = ItemTypeGroup.GlobalItem →
      (LTSResultMerger.getDataEntryForDerivedQuantity "Count" rdFile de mapFile).isSome ∧
      (LTSResultMerger.getDataEntryForDerivedQuantity "Duration" rdFile de mapFile).isSome) →
    (∀ de ∈ todo, (lookupId ev (rdFile.entryId de)).isSome) →
    ∃ evOut,
      todo.foldlM (fun e de => LTSResultMergerPeriodic.mergeDataEntry rdFile de mapFile e) ev
        = .ok evOut ∧
      evOut.map (fun p => p.1) = ev.map (fun p => p.1) ∧
      (∀ k, k ∉ todo.map (fun de => rdFile.entryId de) → lookupId evOut k = lookupId ev k) ∧
      (∀ de ∈ todo,
        LTSResultMergerPeriodic.isDerivedQuantity (rdFile.item de).quantity = true →
        lookupId evOut (rdFile.entryId de) = lookupId ev (rdFile.entryId de)) ∧
      (∀ de ∈ todo,
        LTSResultMergerPeriodic.isDerivedQuantity (rdFile.item de).quantity = false →
        (rdFile.item de).itemTypeGroup = ItemTypeGroup.GlobalItem →
        lookupId evOut (rdFile.entryId de)
          = (lookupId ev (rdFile.entryId de)).map (· ++ periodicGlobalEventsOf rdFile de)) ∧
      (∀ de ∈ todo, ∀ deC deD,
        LTSResultMergerPeriodic.isDerivedQuantity (rdFile.item de).quantity = false →
        ¬(rdFile.item de).itemTypeGroup = ItemTypeGroup.GlobalItem →
        LTSResultMerger.getDataEntryForDerivedQuantity "Count" rdFile de mapFile = some deC →
        LTSResultMerger.getDataEntryForDerivedQuantity "Duration" rdFile de mapFile = some deD →
        lookupId evOut (rdFile.entryId de)
          = (lookupId ev (rdFile.entryId de)).map
              (· ++ periodicEventsOf rdFile de deC deD)) := by
  induction todo with
  | nil =>
    intro ev _ _ _
    exact ⟨ev, rfl, rfl, fun k _ => rfl, fun de h => absurd h (List.not_mem_nil de),
      fun de h => absurd h (List.not_mem_nil de), fun de h => absurd h (List.not_mem_nil de)⟩
  | cons de rest ih =>
    intro ev hnd hcomp hinit
    have hndrest : (rest.map (fun d => rdFile.entryId d)).Pairwise (· ≠ ·) :=
      (List.pairwise_cons.mp (by simpa using hnd)).2
    have hheadne : ∀ de2 ∈ rest, rdFile.entryId de ≠ rdFile.entryId de2 := by
      intro de2 hde2
      exact (List.pairwise_cons.mp (by simpa using hnd)).1 (rdFile.entryId de2)
        (List.mem_map_of_mem _ hde2)
    have hheadnotrest : rdFile.entryId de ∉ rest.map (fun d => rdFile.entryId d) := by
      intro hmem
      rcases List.mem_map.mp hmem with ⟨d3, hd3, hid3⟩
      exact hheadne d3 hd3 hid3.symm
    cases hd : LTSResultMergerPeriodic.isDerivedQuantity (rdFile.item de).quantity with
    | true =>
      have hred :
          (de :: rest).foldlM
            (fun e d => LTSResultMergerPeriodic.mergeDataEntry rdFile d mapFile e) ev
          = rest.foldlM
            (fun e d => LTSResultMergerPeriodic.mergeDataEntry rdFile d mapFile e) ev := by
        rw [List.foldlM_cons,
          show LTSResultMergerPeriodic.mergeDataEntry rdFile de mapFile ev = .ok ev by
            simp [LTSResultMergerPeriodic.mergeDataEntry, hd]]
        rfl
      rcases ih ev hndrest
        (fun d hd2 => hcomp d (List.mem_cons_of_mem _ hd2))
        (fun d hd2 => hinit d (List.mem_cons_of_mem _ hd2)) with
        ⟨evOut, hfold, hkeys, hother, hderInd, hglobInd, hprimInd⟩
      refine ⟨evOut, by rw [hred]; exact hfold, hkeys, ?_, ?_, ?_, ?_⟩
      · intro k hk
        refine hother k ?_
        intro hmem
        exact hk (by simpa using Or.inr (by simpa using hmem))
      · intro de2 hde2 hd2
        rcases List.mem_cons.mp hde2 with rfl | hde2r
        · exact hother (rdFile.entryId de2)
            (by
              intro hmem
              rcases List.mem_map.mp hmem with ⟨d3, hd3, hid3⟩
              exact hheadne d3 hd3 hid3.symm)
        · exact hderInd de2 hde2r hd2
      · intro de2 hde2 hd2 hg2
        rcases List.mem_cons.mp hde2 with rfl | hde2r
        · rw [hd] at hd2
          cases hd2
        · exact hglobInd de2 hde2r hd2 hg2
      · intro de2 hde2 deC deD hd2 hg2 hderC hderD
        rcases List.mem_cons.mp hde2 with rfl | hde2r
        · rw [hd] at hd2
          cases hd2
        · exact hprimInd de2 hde2r deC deD hd2 hg2 hderC hderD
    | false =>
      rcases Option.isSome_iff_exists.mp (hinit de (List.mem_cons_self ..)) with ⟨v0, hv0⟩
      by_cases hg : (rdFile.item de).itemTypeGroup = ItemTypeGroup.GlobalItem
      · have hred :
            (de :: rest).foldlM
              (fun e d => LTSResultMergerPeriodic.mergeDataEntry rdFile d mapFile e) ev
            = rest.foldlM
              (fun e d => LTSResultMergerPeriodic.mergeDataEntry rdFile d mapFile e)
              (updateId ev (rdFile.entryId de) (· ++ periodicGlobalEventsOf rdFile de)) := by
          rw [List.foldlM_cons,
            show LTSResultMergerPeriodic.mergeDataEntry rdFile de mapFile ev
                = .ok (updateId ev (rdFile.entryId de)
                    (· ++ periodicGlobalEventsOf rdFile de)) by
              simp [LTSResultMergerPeriodic.mergeDataEntry, hd, hg, hv0,
                periodicGlobalEventsOf]]
          rfl
        set ev1 := updateId ev (rdFile.entryId de) (· ++ periodicGlobalEventsOf rdFile de)
          with hev1
        have hlook1self : lookupId ev1 (rdFile.entryId de)
            = some (v0 ++ periodicGlobalEventsOf rdFile de) :=
          lookupId_updateId_self ev (rdFile.entryId de) _ v0 hv0
        have hlook1ne : ∀ k, k ≠ rdFile.entryId de → lookupId ev1 k = lookupId ev k :=
          fun k hk => lookupId_updateId_ne ev (rdFile.entryId de) k _ hk
        rcases ih ev1 hndrest
          (fun d hd2 => hcomp d (List.mem_cons_of_mem _ hd2))
          (fun d hd2 => by
            rw [hlook1ne (rdFile.entryId d) (fun hh => hheadne d hd2 hh.symm)]
            exact hinit d (List.mem_cons_of_mem _ hd2)) with
          ⟨evOut, hfold, hkeys, hother, hderInd, hglobInd, hprimInd⟩
        have hkeys2 : evOut.map (fun p => p.1) = ev.map (fun p => p.1) := by
          rw [hkeys, hev1, updateId_keys]
        refine ⟨evOut, by rw [hred]; exact hfold, hkeys2, ?_, ?_, ?_, ?_⟩
        · intro k hk
          have hk1 : k ∉ rest.map (fun d => rdFile.entryId d) := by
            intro hmem
            exact hk (by simpa using Or.inr (by simpa using hmem))
          have hk2 : k ≠ rdFile.entryId de := by
            intro hh
            exact hk (by simpa using Or.inl hh)
          rw [hother k hk1, hlook1ne k hk2]
        · intro de2 hde2 hd2
          rcases List.mem_cons.mp hde2 with rfl | hde2r
          · rw [hd] at hd2
            cases hd2
          · rw [hderInd de2 hde2r hd2,
              hlook1ne (rdFile.entryId de2) (fun hh => hheadne de2 hde2r hh.symm)]
        · intro de2 hde2 hd2 hg2
          rcases List.mem_cons.mp hde2 with rfl | hde2r
          · rw [hother (rdFile.entryId de2) hheadnotrest, hlook1self, hv0]
            rfl
          · rw [hglobInd de2 hde2r hd2 hg2,
              hlook1ne (rdFile.entryId de2) (fun hh => hheadne de2 hde2r hh.symm)]
        · intro de2 hde2 deC deD hd2 hg2 hderC hderD
          rcases List.mem_cons.mp hde2 with rfl | hde2r
          · exact absurd hg hg2
          · rw [hprimInd de2 hde2r deC deD hd2 hg2 hderC hderD,
              hlook1ne (rdFile.entryId de2) (fun hh => hheadne de2 hde2r hh.symm)]
      · rcases Option.isSome_iff_exists.mp
          (hcomp de (List.mem_cons_self ..) hd hg).1 with ⟨deC, hderC⟩
        rcases Option.isSome_iff_exists.mp
          (hcomp de (List.mem_cons_self ..) hd hg).2 with ⟨deD, hderD⟩
        have hred :
            (de :: rest).foldlM
              (fun e d => LTSResultMergerPeriodic.mergeDataEntry rdFile d mapFile e) ev
            = rest.foldlM
              (fun e d => LTSResultMergerPeriodic.mergeDataEntry rdFile d mapFile e)
              (updateId ev (rdFile.entryId de)
                (· ++ periodicEventsOf rdFile de deC deD)) := by
          rw [List.foldlM_cons,
            show LTSResultMergerPeriodic.mergeDataEntry rdFile de mapFile ev
                = .ok (updateId ev (rdFile.entryId de)
                    (· ++ periodicEventsOf rdFile de deC deD)) by
              simp [LTSResultMergerPeriodic.mergeDataEntry, hd, hg, hv0, hderC, hderD,
                periodicEventsOf]]
          rfl
        set ev1 := updateId ev (rdFile.entryId de) (· ++ periodicEventsOf rdFile de deC deD)
          with hev1
        have hlook1self : lookupId ev1 (rdFile.entryId de)
            = some (v0 ++ periodicEventsOf rdFile de deC deD) :=
          lookupId_updateId_self ev (rdFile.entryId de) _ v0 hv0
        have hlook1ne : ∀ k, k ≠ rdFile.entryId de → lookupId ev1 k = lookupId ev k :=
          fun k hk => lookupId_updateId_ne ev (rdFile.entryId de) k _ hk
        rcases ih ev1 hndrest
          (fun d hd2 => hcomp d (List.mem_cons_of_mem _ hd2))
          (fun d hd2 => by
            rw [hlook1ne (rdFile.entryId d) (fun hh => hheadne d hd2 hh.symm)]
            exact hinit d (List.mem_cons_of_mem _ hd2)) with
          ⟨evOut, hfold, hkeys, hother, hderInd, hglobInd, hprimInd⟩
        have hkeys2 : evOut.map (fun p => p.1) = ev.map (fun p => p.1) := by
          rw [hkeys, hev1, updateId_keys]
        refine ⟨evOut, by rw [hred]; exact hfold, hkeys2, ?_, ?_, ?_, ?_⟩
        · intro k hk
          have hk1 : k ∉ rest.map (fun d => rdFile.entryId d) := by
            intro hmem
            exact hk (by simpa using Or.inr (by simpa using hmem))
          have hk2 : k ≠ rdFile.entryId de := by
            intro hh
            exact hk (by simpa using Or.inl hh)
          rw [hother k hk1, hlook1ne k hk2]
        · intro de2 hde2 hd2
          rcases List.mem_cons.mp hde2 with rfl | hde2r
          · rw [hd] at hd2
            cases hd2
          · rw [hderInd de2 hde2r hd2,
              hlook1ne (rdFile.entryId de2) (fun hh => hheadne de2 hde2r hh.symm)]
        · intro de2 hde2 hd2 hg2
          rcases List.mem_cons.mp hde2 with rfl | hde2r
          · exact absurd hg2 hg
          · rw [hglobInd de2 hde2r hd2 hg2,
              hlook1ne (rdFile.entryId de2) (fun hh => hheadne de2 hde2r hh.symm)]
        · intro de2 hde2 deC2 deD2 hd2 hg2 hderC2 hderD2
          rcases List.mem_cons.mp hde2 with rfl | hde2r
          · have hdeC : deC2 = deC := by
              rw [hderC] at hderC2
              cases hderC2
              rfl
            have hdeD : deD2 = deD := by
              rw [hderD] at hderD2
              cases hderD2
              rfl
            subst hdeC
            subst hdeD
            rw [hother (rdFile.entryId de2) hheadnotrest, hlook1self, hv0]
            rfl
          · rw [hprimInd de2 hde2r deC2 deD2 hd2 hg2 hderC2 hderD2,
              hlook1ne (rdFile.entryId de2) (fun hh => hheadne de2 hde2r hh.symm)]

/-- Collapsing a list whose periods already strictly increase is the
identity. -/
theorem LTSResultMergerPeriodic.processEvents_id_of_strict
    (l : List LTSResultEventPeriodic)
    (h : l.Pairwise fun a b => a.TimePeriod.ticks < b.TimePeriod.ticks) :
    LTSResultMergerPeriodic.processEvents l = l := by
  induction l with
  | nil => rfl
  | cons e rest ih =>
    have hrest := (List.pairwise_cons.mp h).2
    have hhead := (List.pairwise_cons.mp h).1
    simp only [LTSResultMergerPeriodic.processEvents, ih hrest]
    cases rest with
    | nil => rfl
    | cons f rs =>
      have hne : ¬(e.TimePeriod = f.TimePeriod) := by
        intro hh
        have hlt := hhead f (List.mem_cons_self ..)
        rw [hh] at hlt
        exact lt_irrefl _ hlt
      simp [hne]

/-- Reading every position of a list by `getD` over its range rebuilds the
list. -/
theorem range_getD_eq_self {α : Type} (l : List α) (d : α) :
    (List.range l.length).map (fun j => l.getD j d) = l := by
  refine List.ext_getElem (by simp) ?_
  intro i h1 h2
  simp [List.getD_eq_getElem?_getD, List.getElem?_eq_getElem h2]

theorem getAllDataEntries_mem (rd : ResultData) (de : DataEntry)
    (h : de ∈ rd.getAllDataEntries) :
    de.itemIndex < rd.dataItems.length ∧
      de.elementIndex < (rd.item de).numberOfElements := by
  simp only [ResultData.getAllDataEntries, List.mem_flatMap, List.mem_map,
    List.mem_range] at h
  rcases h with ⟨i, hi, e, he, heq⟩
  cases heq
  exact ⟨hi, by simpa [ResultData.item] using he⟩

theorem item_mem (rd : ResultData) (de : DataEntry)
    (h : de.itemIndex < rd.dataItems.length) : rd.item de ∈ rd.dataItems := by
  simp only [ResultData.item, List.getD_eq_getElem?_getD, List.getElem?_eq_getElem h]
  exact List.getElem_mem h

theorem foldlM_ok_of_steps {β : Type} (step : ResultData → β → Except MergeError ResultData)
    (P : ResultData → Prop) (l : List β) :
    (∀ r b, b ∈ l → P r → ∃ r2, step r b = .ok r2 ∧ P r2) →
    ∀ r, P r → ∃ rOut, l.foldlM step r = .ok rOut ∧ P rOut := by
  induction l with
  | nil => exact fun _ r hr => ⟨r, rfl, hr⟩
  | cons b rest ih =>
    intro hstep r hr
    rcases hstep r b (List.mem_cons_self ..) hr with ⟨r1, hb, hr1⟩
    rcases ih (fun r0 b0 hb0 hr0 => hstep r0 b0 (List.mem_cons_of_mem _ hb0) hr0) r1 hr1 with
      ⟨rOut, hfold, hrOut⟩
    refine ⟨rOut, ?_, hrOut⟩
    rw [List.foldlM_cons, hb]
    exact hfold

theorem except_ok_bind {α β : Type} (a : α) (f : α → Except MergeError β) :
    (Except.ok a >>= f) = f a := rfl

theorem keys_createMapIdToResultEvents (rd : ResultData) (entries : List DataEntry) :
    (createMapIdToResultEvents rd entries).map (fun p => p.1)
      = entries.map (fun de => rd.entryId de) := by
  simp [createMapIdToResultEvents]

theorem keys_createMapIdToResultEventsPeriodic (rd : ResultData) (entries : List DataEntry) :
    (createMapIdToResultEventsPeriodic rd entries).map (fun p => p.1)
      = entries.map (fun de => rd.entryId de) := by
  simp [createMapIdToResultEventsPeriodic]

theorem keys_createMapIdToDataEntry (rd : ResultData) (entries : List DataEntry) :
    (createMapIdToDataEntry rd entries).map (fun p => p.1)
      = entries.map (fun de => rd.entryId de) := by
  simp [createMapIdToDataEntry]

theorem mergeDataEntries_singleton_extreme (rd : ResultData)
    (ev0 : List (DataEntryId × List LTSResultEvent)) :
    LTSResultMergerExtreme.mergeDataEntries [rd] ev0
      = (rd.getAllDataEntries).foldlM
          (fun e de => LTSResultMergerExtreme.mergeDataEntry rd de
            (createMapIdToDataEntry rd rd.getAllDataEntries) e) ev0 := by
  show ((rd.getAllDataEntries).foldlM
      (fun e de => LTSResultMergerExtreme.mergeDataEntry rd de
        (createMapIdToDataEntry rd rd.getAllDataEntries) e) ev0 >>=
      fun ev1 => pure ev1) = _
  rw [bind_pure]

theorem mergeDataEntries_singleton_periodic (rd : ResultData)
    (ev0 : List (DataEntryId × List LTSResultEventPeriodic)) :
    LTSResultMergerPeriodic.mergeDataEntries [rd] ev0
      = (rd.getAllDataEntries).foldlM
          (fun e de => LTSResultMergerPeriodic.mergeDataEntry rd de
            (createMapIdToDataEntry rd rd.getAllDataEntries) e) ev0 := by
  show ((rd.getAllDataEntries).foldlM
      (fun e de => LTSResultMergerPeriodic.mergeDataEntry rd de
        (createMapIdToDataEntry rd rd.getAllDataEntries) e) ev0 >>=
      fun ev1 => pure ev1) = _
  rw [bind_pure]

theorem extremeEventsOf_length (rd : ResultData) (de deT : DataEntry) :
    (extremeEventsOf rd de deT).length = (rd.item de).numberOfTimeSteps := by
  simp [extremeEventsOf]

/-- Singleton Extreme merge on a well-formed file whose per-entry data is
already ordered by the `CompareValue` comparator: every primary entry's
final event list is exactly the file's own data, and the regenerated axis
length is the entry's time-step count. -/
theorem extreme_singleton_merge_aux (rd : ResultData)
    (hids : (rd.getAllDataEntries.map (fun de => rd.entryId de)).Pairwise (· ≠ ·))
    (hne : rd.getAllDataEntries ≠ [])
    (hN : ∀ it ∈ rd.dataItems, it.numberOfTimeSteps = rd.timesList.length)
    (hcomp : ∀ de ∈ rd.getAllDataEntries,
      LTSResultMergerExtreme.isDerivedQuantity (rd.item de).quantity = false →
      (LTSResultMerger.getDataEntryForDerivedQuantity "Time" rd de
        (createMapIdToDataEntry rd rd.getAllDataEntries)).isSome)
    (hsorted : ∀ de ∈ rd.getAllDataEntries, ∀ deT,
      LTSResultMerger.getDataEntryForDerivedQuantity "Time" rd de
        (createMapIdToDataEntry rd rd.getAllDataEntries) = some deT →
      (extremeEventsOf rd de deT).Sorted extremeLE) :
    ∃ m2 rd3, LTSResultMergerExtreme.merge [rd] = .ok (m2, rd3) ∧
      (∀ de ∈ rd.getAllDataEntries, ∀ deT,
        LTSResultMergerExtreme.isDerivedQuantity (rd.item de).quantity = false →
        LTSResultMerger.getDataEntryForDerivedQuantity "Time" rd de
          (createMapIdToDataEntry rd rd.getAllDataEntries) = some deT →
        lookupId m2 (rd.entryId de) = some (extremeEventsOf rd de deT)) ∧
      (∀ de ∈ rd.getAllDataEntries,
        LTSResultMergerExtreme.isDerivedQuantity (rd.item de).quantity = false →
        rd3.timesList.length = (rd.item de).numberOfTimeSteps) := by
  have hinit0 : ∀ de ∈ rd.getAllDataEntries,
      lookupId (createMapIdToResultEvents rd rd.getAllDataEntries) (rd.entryId de)
        = some [] :=
    fun de hde => lookup_map_const_of_mem rd _ de hde []
  rcases LTSResultMergerExtreme.mergeDataEntry_fold_extreme rd
      (createMapIdToDataEntry rd rd.getAllDataEntries) rd.getAllDataEntries
      (createMapIdToResultEvents rd rd.getAllDataEntries) hids hcomp
      (fun de hde => by rw [hinit0 de hde]; rfl) with
    ⟨m1, hfold, hkeys1, hother1, hder1, hprim1⟩
  have hmde : LTSResultMergerExtreme.mergeDataEntries [rd]
      (createMapIdToResultEvents rd rd.getAllDataEntries) = .ok m1 := by
    rw [mergeDataEntries_singleton_extreme]
    exact hfold
  have hm2look : ∀ k, lookupId (LTSResultMergerExtreme.sortResults m1) k
      = (lookupId m1 k).map LTSResultEvents.sortOnValue :=
    fun k => lookupId_map_values m1 _ k
  have hprimVal : ∀ de ∈ rd.getAllDataEntries, ∀ deT,
      LTSResultMergerExtreme.isDerivedQuantity (rd.item de).quantity = false →
      LTSResultMerger.getDataEntryForDerivedQuantity "Time" rd de
        (createMapIdToDataEntry rd rd.getAllDataEntries) = some deT →
      lookupId (LTSResultMergerExtreme.sortResults m1) (rd.entryId de)
        = some (extremeEventsOf rd de deT) := by
    intro de hde deT hd hder
    rw [hm2look, hprim1 de hde deT hd hder, hinit0 de hde]
    show some (LTSResultEvents.sortOnValue ([] ++ extremeEventsOf rd de deT))
        = some (extremeEventsOf rd de deT)
    rw [List.nil_append]
    exact congrArg some (List.Sorted.insertionSort_eq (hsorted de hde deT hder))
  have hderVal : ∀ de ∈ rd.getAllDataEntries,
      LTSResultMergerExtreme.isDerivedQuantity (rd.item de).quantity = true →
      lookupId (LTSResultMergerExtreme.sortResults m1) (rd.entryId de) = some [] := by
    intro de hde hd
    rw [hm2look, hder1 de hde hd, hinit0 de hde]
    rfl
  have hkeyssort : (LTSResultMergerExtreme.sortResults m1).map (fun p => p.1)
      = m1.map (fun p => p.1) := by
    simp [LTSResultMergerExtreme.sortResults]
  have hkeys2 : (LTSResultMergerExtreme.sortResults m1).map (fun p => p.1)
      = rd.getAllDataEntries.map (fun de => rd.entryId de) := by
    rw [hkeyssort, hkeys1, keys_createMapIdToResultEvents]
  have hnd2 : ((LTSResultMergerExtreme.sortResults m1).map (fun p => p.1)).Pairwise (· ≠ ·) := by
    rw [hkeys2]
    exact hids
  have hlenbound : ∀ p ∈ LTSResultMergerExtreme.sortResults m1,
      p.2.length ≤ rd.timesList.length := by
    intro p hp
    have hpk : p.1 ∈ rd.getAllDataEntries.map (fun de => rd.entryId de) := by
      rw [← hkeys2]
      exact List.mem_map_of_mem _ hp
    rcases List.mem_map.mp hpk with ⟨de2, hde2, hid⟩
    have hlk : lookupId (LTSResultMergerExtreme.sortResults m1) p.1 = some p.2 :=
      lookup_of_mem_nodup _ hnd2 p hp
    rw [← hid] at hlk
    cases hd : LTSResultMergerExtreme.isDerivedQuantity (rd.item de2).quantity with
    | true =>
      rw [hderVal de2 hde2 hd] at hlk
      injection hlk with h2
      rw [← h2]
      simp
    | false =>
      rcases Option.isSome_iff_exists.mp (hcomp de2 hde2 hd) with ⟨deT, hder⟩
      rw [hprimVal de2 hde2 deT hd hder] at hlk
      injection hlk with h2
      rw [← h2, extremeEventsOf_length, hN (rd.item de2)
        (item_mem rd de2 (getAllDataEntries_mem rd de2 hde2).1)]
  have hm2ne : LTSResultMergerExtreme.sortResults m1 ≠ [] := by
    intro h0
    have h1 := hkeys2
    rw [h0] at h1
    have h2 : rd.getAllDataEntries.map (fun de => rd.entryId de) = [] := h1.symm
    rw [List.map_eq_nil_iff] at h2
    exact hne h2
  rcases hmaxopt : ((LTSResultMergerExtreme.sortResults m1).map fun p => p.2.length).max? with
    _ | M
  · exact absurd (List.max?_eq_none_iff.mp hmaxopt)
      (by simpa using hm2ne)
  have hutl : LTSResultMergerExtreme.updateTimesList (LTSResultMergerExtreme.sortResults m1) rd
      = .ok { rd with
          timesList := LTSResultMergerExtreme.getTimesListForEventResults M } := by
    simp [LTSResultMergerExtreme.updateTimesList, hmaxopt]
  -- run UpdateResultData, preserving item metadata and the new axis
  have hupdok : ∃ rd3,
      LTSResultMergerExtreme.updateResultData (createMapIdToDataEntry rd rd.getAllDataEntries)
        (LTSResultMergerExtreme.sortResults m1)
        { rd with timesList := LTSResultMergerExtreme.getTimesListForEventResults M }
        = .ok rd3 ∧
      ((∀ d2 : DataEntry, (rd3.item d2).meta = (rd.item d2).meta) ∧
        rd3.timesList = LTSResultMergerExtreme.getTimesListForEventResults M) := by
    refine foldlM_ok_of_steps _
      (fun r => (∀ d2 : DataEntry, (r.item d2).meta = (rd.item d2).meta) ∧
        r.timesList = LTSResultMergerExtreme.getTimesListForEventResults M)
      (LTSResultMergerExtreme.sortResults m1) ?_ _ ⟨fun _ => rfl, rfl⟩
    intro r p hp hPr
    by_cases hlen0 : p.2.length = 0
    · refine ⟨r, ?_, hPr⟩
      simp [LTSResultMergerExtreme.updateEntryStep, hlen0]
    · have hpk : p.1 ∈ rd.getAllDataEntries.map (fun de => rd.entryId de) := by
        rw [← hkeys2]
        exact List.mem_map_of_mem _ hp
      rcases List.mem_map.mp hpk with ⟨de2, hde2, hid⟩
      have hlk : lookupId (LTSResultMergerExtreme.sortResults m1) p.1 = some p.2 :=
        lookup_of_mem_nodup _ hnd2 p hp
      cases hd : LTSResultMergerExtreme.isDerivedQuantity (rd.item de2).quantity with
      | true =>
        rw [← hid, hderVal de2 hde2 hd] at hlk
        injection hlk with h2
        refine absurd ?_ hlen0
        rw [← h2]
        rfl
      | false =>
        have hlkmf : lookupId (createMapIdToDataEntry rd rd.getAllDataEntries) p.1
            = some de2 := by
          rw [← hid]
          refine lookup_of_mem_nodup _ ?_ (rd.entryId de2, de2) ?_
          · rw [keys_createMapIdToDataEntry]
            exact hids
          · exact List.mem_map_of_mem _ hde2
        rcases Option.isSome_iff_exists.mp (hcomp de2 hde2 hd) with ⟨deT, hder⟩
        have hdercur : LTSResultMerger.getDataEntryForDerivedQuantity "Time" r de2
            (createMapIdToDataEntry rd rd.getAllDataEntries) = some deT := by
          rw [getDerived_congr "Time" de2 _ r rd (hPr.1 de2)]
          exact hder
        refine ⟨(List.range p.2.length).foldl
          (LTSResultMergerExtreme.writeEventStep de2 deT p.2) r, ?_, ?_⟩
        · simp [LTSResultMergerExtreme.updateEntryStep, hlen0, hlkmf, hdercur]
        · refine foldl_invariant _
            (fun r2 => (∀ d2 : DataEntry, (r2.item d2).meta = (rd.item d2).meta) ∧
              r2.timesList = LTSResultMergerExtreme.getTimesListForEventResults M)
            _ ?_ r hPr
          intro r2 i hPr2
          simp only [LTSResultMergerExtreme.writeEventStep]
          exact ⟨fun d2 => by rw [setValue_item_meta, setValue_item_meta]; exact hPr2.1 d2,
            by rw [setValue_timesList, setValue_timesList]; exact hPr2.2⟩
  rcases hupdok with ⟨rd3, hupd, hP3⟩
  have hmergeEq : LTSResultMergerExtreme.merge [rd]
      = (LTSResultMergerExtreme.mergeDataEntries [rd]
          (createMapIdToResultEvents rd rd.getAllDataEntries) >>= fun m1x =>
         LTSResultMergerExtreme.updateTimesList
           (LTSResultMergerExtreme.sortResults m1x) rd >>= fun rd2x =>
         LTSResultMergerExtreme.updateResultData
           (createMapIdToDataEntry rd rd.getAllDataEntries)
           (LTSResultMergerExtreme.sortResults m1x) rd2x >>= fun rd3x =>
         pure (LTSResultMergerExtreme.sortResults m1x, rd3x)) := rfl
  refine ⟨LTSResultMergerExtreme.sortResults m1, rd3, ?_, hprimVal, ?_⟩
  · rw [hmergeEq, hmde, except_ok_bind, hutl, except_ok_bind, hupd, except_ok_bind]
    rfl
  · intro de hde hd
    have hLde : (rd.item de).numberOfTimeSteps = rd.timesList.length :=
      hN (rd.item de) (item_mem rd de (getAllDataEntries_mem rd de hde).1)
    have hM := (List.max?_eq_some_iff (fun a => le_refl a) (fun a b => max_choice a b)
      (fun a b c => max_le_iff)).mp hmaxopt
    rcases Option.isSome_iff_exists.mp (hcomp de hde hd) with ⟨deT, hder⟩
    have hmem : (rd.timesList.length : Nat)
        ∈ (LTSResultMergerExtreme.sortResults m1).map fun p => p.2.length := by
      have hpmem : (rd.entryId de, extremeEventsOf rd de deT)
          ∈ LTSResultMergerExtreme.sortResults m1 :=
        mem_of_lookup _ _ _ (hprimVal de hde deT hd hder)
      have := List.mem_map_of_mem (fun p => p.2.length) hpmem
      simpa [extremeEventsOf_length, hLde] using this
    have hMle : M ≤ rd.timesList.length := by
      rcases List.mem_map.mp hM.1 with ⟨p, hp, hpM⟩
      rw [← hpM]
      exact hlenbound p hp
    have hLleM : rd.timesList.length ≤ M := hM.2 _ hmem
    have hMeq : M = rd.timesList.length := le_antisymm hMle hLleM
    rw [hP3.2, getTimesListForEventResults_length, hMeq, hLde]

theorem periodicEventsOf_length (rd : ResultData) (de deC deD : DataEntry) :
    (periodicEventsOf rd de deC deD).length = (rd.item de).numberOfTimeSteps := by
  simp [periodicEventsOf]

theorem periodicGlobalEventsOf_length (rd : ResultData) (de : DataEntry) :
    (periodicGlobalEventsOf rd de).length = (rd.item de).numberOfTimeSteps := by
  simp [periodicGlobalEventsOf]

theorem pairwise_map_range {α : Type} (n : Nat) (f : Nat → α) (R : α → α → Prop)
    (h : ∀ i j, i < j → j < n → R (f i) (f j)) : ((List.range n).map f).Pairwise R := by
  rw [List.pairwise_map]
  refine List.Pairwise.imp_of_mem ?_ (List.pairwise_lt_range n)
  intro i j hi hj hij
  exact h i j hij (List.mem_range.mp hj)

theorem timesList_getD_strict (rd : ResultData)
    (hTL : rd.timesList.Pairwise fun a b => a.ticks < b.ticks) :
    ∀ i j, i < j → j < rd.timesList.length →
      (rd.timesList.getD i ⟨0⟩).ticks < (rd.timesList.getD j ⟨0⟩).ticks := by
  intro i j hij hj
  have hi : i < rd.timesList.length := lt_trans hij hj
  rw [List.getD_eq_getElem?_getD, List.getD_eq_getElem?_getD,
    List.getElem?_eq_getElem hi, List.getElem?_eq_getElem hj]
  exact List.pairwise_iff_getElem.mp hTL i j hi hj hij

theorem periodicEventsOf_strict (rd : ResultData) (de deC deD : DataEntry)
    (hnts : (rd.item de).numberOfTimeSteps = rd.timesList.length)
    (hTL : rd.timesList.Pairwise fun a b => a.ticks < b.ticks) :
    (periodicEventsOf rd de deC deD).Pairwise
      fun a b => a.TimePeriod.ticks < b.TimePeriod.ticks := by
  refine pairwise_map_range _ _ _ ?_
  intro i j hij hj
  exact timesList_getD_strict rd hTL i j hij (by rw [← hnts]; exact hj)

theorem periodicGlobalEventsOf_strict (rd : ResultData) (de : DataEntry)
    (hnts : (rd.item de).numberOfTimeSteps = rd.timesList.length)
    (hTL : rd.timesList.Pairwise fun a b => a.ticks < b.ticks) :
    (periodicGlobalEventsOf rd de).Pairwise
      fun a b => a.TimePeriod.ticks < b.TimePeriod.ticks := by
  refine pairwise_map_range _ _ _ ?_
  intro i j hij hj
  exact timesList_getD_strict rd hTL i j hij (by rw [← hnts]; exact hj)

theorem periodicEventsOf_map_tp (rd : ResultData) (de deC deD : DataEntry)
    (hnts : (rd.item de).numberOfTimeSteps = rd.timesList.length) :
    (periodicEventsOf rd de deC deD).map (fun e => e.TimePeriod) = rd.timesList := by
  simp only [periodicEventsOf, List.map_map]
  show (List.range (rd.item de).numberOfTimeSteps).map
      (fun j => rd.timesList.getD j ⟨0⟩) = rd.timesList
  rw [hnts]
  exact range_getD_eq_self rd.timesList ⟨0⟩

theorem periodicGlobalEventsOf_map_tp (rd : ResultData) (de : DataEntry)
    (hnts : (rd.item de).numberOfTimeSteps = rd.timesList.length) :
    (periodicGlobalEventsOf rd de).map (fun e => e.TimePeriod) = rd.timesList := by
  simp only [periodicGlobalEventsOf, List.map_map]
  show (List.range (rd.item de).numberOfTimeSteps).map
      (fun j => rd.timesList.getD j ⟨0⟩) = rd.timesList
  rw [hnts]
  exact range_getD_eq_self rd.timesList ⟨0⟩

/-- Singleton Periodic merge on a well-formed file whose time axis is
strictly increasing: every primary entry's final event list is exactly the
file's own data (no collapse happens), and the time axis is unchanged. -/
theorem periodic_singleton_merge_aux (rd : ResultData)
    (hids : (rd.getAllDataEntries.map (fun de => rd.entryId de)).Pairwise (· ≠ ·))
    (hN : ∀ it ∈ rd.dataItems, it.numberOfTimeSteps = rd.timesList.length)
    (hTL : rd.timesList.Pairwise fun a b => a.ticks < b.ticks)
    (hcomp : ∀ de ∈ rd.getAllDataEntries,
      LTSResultMergerPeriodic.isDerivedQuantity (rd.item de).quantity = false →
      ¬(rd.item de).itemTypeGroup = ItemTypeGroup.GlobalItem →
      (LTSResultMerger.getDataEntryForDerivedQuantity "Count" rd de
        (createMapIdToDataEntry rd rd.getAllDataEntries)).isSome ∧
      (LTSResultMerger.getDataEntryForDerivedQuantity "Duration" rd de
        (createMapIdToDataEntry rd rd.getAllDataEntries)).isSome) :
    ∃ m2 rd3, LTSResultMergerPeriodic.merge [rd] = .ok (m2, rd3) ∧
      (∀ de ∈ rd.getAllDataEntries, ∀ deC deD,
        LTSResultMergerPeriodic.isDerivedQuantity (rd.item de).quantity = false →
        ¬(rd.item de).itemTypeGroup = ItemTypeGroup.GlobalItem →
        LTSResultMerger.getDataEntryForDerivedQuantity "Count" rd de
          (createMapIdToDataEntry rd rd.getAllDataEntries) = some deC →
        LTSResultMerger.getDataEntryForDerivedQuantity "Duration" rd de
          (createMapIdToDataEntry rd rd.getAllDataEntries) = some deD →
        lookupId m2 (rd.entryId de) = some (periodicEventsOf rd de deC deD)) ∧
      (∀ de ∈ rd.getAllDataEntries,
        LTSResultMergerPeriodic.isDerivedQuantity (rd.item de).quantity = false →
        (rd.item de).itemTypeGroup = ItemTypeGroup.GlobalItem →
        lookupId m2 (rd.entryId de) = some (periodicGlobalEventsOf rd de)) ∧
      rd3.timesList = rd.timesList := by
  have hinit0 : ∀ de ∈ rd.getAllDataEntries,
      lookupId (createMapIdToResultEventsPeriodic rd rd.getAllDataEntries) (rd.entryId de)
        = some [] :=
    fun de hde => lookup_map_const_of_mem rd _ de hde []
  rcases LTSResultMergerPeriodic.mergeDataEntry_fold_periodic rd
      (createMapIdToDataEntry rd rd.getAllDataEntries) rd.getAllDataEntries
      (createMapIdToResultEventsPeriodic rd rd.getAllDataEntries) hids hcomp
      (fun de hde => by rw [hinit0 de hde]; rfl) with
    ⟨m1, hfold, hkeys1, hother1, hder1, hglob1, hprim1⟩
  have hmde : LTSResultMergerPeriodic.mergeDataEntries [rd]
      (createMapIdToResultEventsPeriodic rd rd.getAllDataEntries) = .ok m1 := by
    rw [mergeDataEntries_singleton_periodic]
    exact hfold
  have hm2look : ∀ k,
      lookupId (LTSResultMergerPeriodic.processResults
        (LTSResultMergerPeriodic.sortResults m1)) k
      = ((lookupId m1 k).map LTSResultEvents.sortOnTimePeriod).map
          LTSResultMergerPeriodic.processEvents := by
    intro k
    show lookupId ((m1.map fun p => (p.1, LTSResultEvents.sortOnTimePeriod p.2)).map
        fun p => (p.1, LTSResultMergerPeriodic.processEvents p.2)) k = _
    rw [lookupId_map_values, lookupId_map_values]
  have hprimVal : ∀ de ∈ rd.getAllDataEntries, ∀ deC deD,
      LTSResultMergerPeriodic.isDerivedQuantity (rd.item de).quantity = false →
      ¬(rd.item de).itemTypeGroup = ItemTypeGroup.GlobalItem →
      LTSResultMerger.getDataEntryForDerivedQuantity "Count" rd de
        (createMapIdToDataEntry rd rd.getAllDataEntries) = some deC →
      LTSResultMerger.getDataEntryForDerivedQuantity "Duration" rd de
        (createMapIdToDataEntry rd rd.getAllDataEntries) = some deD →
      lookupId (LTSResultMergerPeriodic.processResults
        (LTSResultMergerPeriodic.sortResults m1)) (rd.entryId de)
        = some (periodicEventsOf rd de deC deD) := by
    intro de hde deC deD hd hg hderC hderD
    rw [hm2look, hprim1 de hde deC deD hd hg hderC hderD, hinit0 de hde]
    show some (LTSResultMergerPeriodic.processEvents
      (LTSResultEvents.sortOnTimePeriod ([] ++ periodicEventsOf rd de deC deD))) = _
    rw [List.nil_append]
    have hnts : (rd.item de).numberOfTimeSteps = rd.timesList.length :=
      hN _ (item_mem rd de (getAllDataEntries_mem rd de hde).1)
    have hstrict := periodicEventsOf_strict rd de deC deD hnts hTL
    have hsortedLE : (periodicEventsOf rd de deC deD).Sorted periodicLE :=
      hstrict.imp fun h => le_of_lt h
    rw [show LTSResultEvents.sortOnTimePeriod (periodicEventsOf rd de deC deD)
        = periodicEventsOf rd de deC deD from List.Sorted.insertionSort_eq hsortedLE]
    rw [LTSResultMergerPeriodic.processEvents_id_of_strict _ hstrict]
  have hglobVal : ∀ de ∈ rd.getAllDataEntries,
      LTSResultMergerPeriodic.isDerivedQuantity (rd.item de).quantity = false →
      (rd.item de).itemTypeGroup = ItemTypeGroup.GlobalItem →
      lookupId (LTSResultMergerPeriodic.processResults
        (LTSResultMergerPeriodic.sortResults m1)) (rd.entryId de)
        = some (periodicGlobalEventsOf rd de) := by
    intro de hde hd hg
    rw [hm2look, hglob1 de hde hd hg, hinit0 de hde]
    show some (LTSResultMergerPeriodic.processEvents
      (LTSResultEvents.sortOnTimePeriod ([] ++ periodicGlobalEventsOf rd de))) = _
    rw [List.nil_append]
    have hnts : (rd.item de).numberOfTimeSteps = rd.timesList.length :=
      hN _ (item_mem rd de (getAllDataEntries_mem rd de hde).1)
    have hstrict := periodicGlobalEventsOf_strict rd de hnts hTL
    have hsortedLE : (periodicGlobalEventsOf rd de).Sorted periodicLE :=
      hstrict.imp fun h => le_of_lt h
    rw [show LTSResultEvents.sortOnTimePeriod (periodicGlobalEventsOf rd de)
        = periodicGlobalEventsOf rd de from List.Sorted.insertionSort_eq hsortedLE]
    rw [LTSResultMergerPeriodic.processEvents_id_of_strict _ hstrict]
  have hderVal : ∀ de ∈ rd.getAllDataEntries,
      LTSResultMergerPeriodic.isDerivedQuantity (rd.item de).quantity = true →
      lookupId (LTSResultMergerPeriodic.processResults
        (LTSResultMergerPeriodic.sortResults m1)) (rd.entryId de) = some [] := by
    intro de hde hd
    rw [hm2look, hder1 de hde hd, hinit0 de hde]
    rfl
  have hkeys2 : (LTSResultMergerPeriodic.processResults
      (LTSResultMergerPeriodic.sortResults m1)).map (fun p => p.1)
      = rd.getAllDataEntries.map (fun de => rd.entryId de) := by
    have h1 : (LTSResultMergerPeriodic.processResults
        (LTSResultMergerPeriodic.sortResults m1)).map (fun p => p.1)
        = m1.map (fun p => p.1) := by
      simp [LTSResultMergerPeriodic.processResults, LTSResultMergerPeriodic.sortResults]
    rw [h1, hkeys1, keys_createMapIdToResultEventsPeriodic]
  have hnd2 : ((LTSResultMergerPeriodic.processResults
      (LTSResultMergerPeriodic.sortResults m1)).map (fun p => p.1)).Pairwise (· ≠ ·) := by
    rw [hkeys2]
    exact hids
  have hutl : LTSResultMergerPeriodic.updateTimesList
      (LTSResultMergerPeriodic.processResults (LTSResultMergerPeriodic.sortResults m1)) rd
      = rd := by
    unfold LTSResultMergerPeriodic.updateTimesList
    split
    · rfl
    · rename_i p hfind
      have hp : p ∈ LTSResultMergerPeriodic.processResults
          (LTSResultMergerPeriodic.sortResults m1) := List.mem_of_find?_eq_some hfind
      have hplen : 0 < p.2.length := by
        have h2 := List.find?_some hfind
        simpa using h2
      have hpk : p.1 ∈ rd.getAllDataEntries.map (fun de => rd.entryId de) := by
        rw [← hkeys2]
        exact List.mem_map_of_mem _ hp
      rcases List.mem_map.mp hpk with ⟨de2, hde2, hid⟩
      have hlk : lookupId (LTSResultMergerPeriodic.processResults
          (LTSResultMergerPeriodic.sortResults m1)) p.1 = some p.2 :=
        lookup_of_mem_nodup _ hnd2 p hp
      rw [← hid] at hlk
      have hnts : (rd.item de2).numberOfTimeSteps = rd.timesList.length :=
        hN _ (item_mem rd de2 (getAllDataEntries_mem rd de2 hde2).1)
      have hmapTP : p.2.map (fun e => e.TimePeriod) = rd.timesList := by
        cases hd : LTSResultMergerPeriodic.isDerivedQuantity (rd.item de2).quantity with
        | true =>
          rw [hderVal de2 hde2 hd] at hlk
          injection hlk with h2
          rw [← h2] at hplen
          cases hplen
        | false =>
          by_cases hg : (rd.item de2).itemTypeGroup = ItemTypeGroup.GlobalItem
          · rw [hglobVal de2 hde2 hd hg] at hlk
            injection hlk with h2
            rw [← h2]
            exact periodicGlobalEventsOf_map_tp rd de2 hnts
          · rcases hcomp de2 hde2 hd hg with ⟨hC, hD⟩
            rcases Option.isSome_iff_exists.mp hC with ⟨deC, hderC⟩
            rcases Option.isSome_iff_exists.mp hD with ⟨deD, hderD⟩
            rw [hprimVal de2 hde2 deC deD hd hg hderC hderD] at hlk
            injection hlk with h2
            rw [← h2]
            exact periodicEventsOf_map_tp rd de2 deC deD hnts
      rw [hmapTP]
  have hupdok : ∃ rd3,
      LTSResultMergerPeriodic.updateResultData (createMapIdToDataEntry rd rd.getAllDataEntries)
        (LTSResultMergerPeriodic.processResults (LTSResultMergerPeriodic.sortResults m1)) rd
        = .ok rd3 ∧
      ((∀ d2 : DataEntry, (rd3.item d2).meta = (rd.item d2).meta) ∧
        rd3.timesList = rd.timesList) := by
    refine foldlM_ok_of_steps _
      (fun r => (∀ d2 : DataEntry, (r.item d2).meta = (rd.item d2).meta) ∧
        r.timesList = rd.timesList)
      (LTSResultMergerPeriodic.processResults (LTSResultMergerPeriodic.sortResults m1))
      ?_ _ ⟨fun _ => rfl, rfl⟩
    intro r p hp hPr
    by_cases hlen0 : p.2.length = 0
    · refine ⟨r, ?_, hPr⟩
      simp [LTSResultMergerPeriodic.updateEntryStep, hlen0]
    · have hpk : p.1 ∈ rd.getAllDataEntries.map (fun de => rd.entryId de) := by
        rw [← hkeys2]
        exact List.mem_map_of_mem _ hp
      rcases List.mem_map.mp hpk with ⟨de2, hde2, hid⟩
      have hlk : lookupId (LTSResultMergerPeriodic.processResults
          (LTSResultMergerPeriodic.sortResults m1)) p.1 = some p.2 :=
        lookup_of_mem_nodup _ hnd2 p hp
      cases hd : LTSResultMergerPeriodic.isDerivedQuantity (rd.item de2).quantity with
      | true =>
        rw [← hid, hderVal de2 hde2 hd] at hlk
        injection hlk with h2
        refine absurd ?_ hlen0
        rw [← h2]
        rfl
      | false =>
        have hlkmf : lookupId (createMapIdToDataEntry rd rd.getAllDataEntries) p.1
            = some de2 := by
          rw [← hid]
          refine lookup_of_mem_nodup _ ?_ (rd.entryId de2, de2) ?_
          · rw [keys_createMapIdToDataEntry]
            exact hids
          · exact List.mem_map_of_mem _ hde2
        have hgr : (r.item de2).itemTypeGroup = (rd.item de2).itemTypeGroup :=
          congrArg (fun t => t.2.1) (hPr.1 de2)
        by_cases hg : (rd.item de2).itemTypeGroup = ItemTypeGroup.GlobalItem
        · refine ⟨(List.range p.2.length).foldl
            (LTSResultMergerPeriodic.writeEventStepGlobal de2 p.2) r, ?_, ?_⟩
          · simp [LTSResultMergerPeriodic.updateEntryStep, hlen0, hlkmf, hgr, hg]
          · refine foldl_invariant _
              (fun r2 => (∀ d2 : DataEntry, (r2.item d2).meta = (rd.item d2).meta) ∧
                r2.timesList = rd.timesList) _ ?_ r hPr
            intro r2 i hPr2
            simp only [LTSResultMergerPeriodic.writeEventStepGlobal]
            exact ⟨fun d2 => by rw [setValue_item_meta]; exact hPr2.1 d2,
              by rw [setValue_timesList]; exact hPr2.2⟩
        · rcases hcomp de2 hde2 hd hg with ⟨hC, hD⟩
          rcases Option.isSome_iff_exists.mp hC with ⟨deC, hderC⟩
          rcases Option.isSome_iff_exists.mp hD with ⟨deD, hderD⟩
          have hderCcur : LTSResultMerger.getDataEntryForDerivedQuantity "Count" r de2
              (createMapIdToDataEntry rd rd.getAllDataEntries) = some deC := by
            rw [getDerived_congr "Count" de2 _ r rd (hPr.1 de2)]
            exact hderC
          have hderDcur : LTSResultMerger.getDataEntryForDerivedQuantity "Duration" r de2
              (createMapIdToDataEntry rd rd.getAllDataEntries) = some deD := by
            rw [getDerived_congr "Duration" de2 _ r rd (hPr.1 de2)]
            exact hderD
          refine ⟨(List.range p.2.length).foldl
            (LTSResultMergerPeriodic.writeEventStep de2 deC deD p.2) r, ?_, ?_⟩
          · simp [LTSResultMergerPeriodic.updateEntryStep, hlen0, hlkmf, hgr, hg,
              hderCcur, hderDcur]
          · refine foldl_invariant _
              (fun r2 => (∀ d2 : DataEntry, (r2.item d2).meta = (rd.item d2).meta) ∧
                r2.timesList = rd.timesList) _ ?_ r hPr
            intro r2 i hPr2
            simp only [LTSResultMergerPeriodic.writeEventStep]
            exact ⟨fun d2 => by
                rw [setValue_item_meta, setValue_item_meta, setValue_item_meta]
                exact hPr2.1 d2,
              by
                rw [setValue_timesList, setValue_timesList, setValue_timesList]
                exact hPr2.2⟩
  rcases hupdok with ⟨rd3, hupd, hP3⟩
  have hmergeEq : LTSResultMergerPeriodic.merge [rd]
      = (LTSResultMergerPeriodic.mergeDataEntries [rd]
          (createMapIdToResultEventsPeriodic rd rd.getAllDataEntries) >>= fun m1x =>
         LTSResultMergerPeriodic.updateResultData
           (createMapIdToDataEntry rd rd.getAllDataEntries)
           (LTSResultMergerPeriodic.processResults (LTSResultMergerPeriodic.sortResults m1x))
           (LTSResultMergerPeriodic.updateTimesList
             (LTSResultMergerPeriodic.processResults
               (LTSResultMergerPeriodic.sortResults m1x)) rd) >>= fun rd3x =>
         pure (LTSResultMergerPeriodic.processResults
           (LTSResultMergerPeriodic.sortResults m1x), rd3x)) := rfl
  refine ⟨LTSResultMergerPeriodic.processResults (LTSResultMergerPeriodic.sortResults m1),
    rd3, ?_, hprimVal, hglobVal, hP3.2⟩
  rw [hmergeEq, hmde, except_ok_bind, hutl, hupd, except_ok_bind]
  rfl

/-- C9 counterexample file: a well-formed Extreme file whose event values
are NOT in descending order (1 before 2). -/
def exampleFileC9 : ResultData :=
  { resultType := .LTSEvents
    timesList := [⟨0⟩, ⟨1⟩]
    dataItems := [
      { quantity := ⟨"WaterLevelMaximum", "Water level maximum"⟩
        itemTypeGroup := .NodeItem
        numberWithinGroup := 1
        numberOfElements := 1
        timeData := [[1], [2]] },
      { quantity := ⟨"WaterLevelMaximumTime", "Water level maximum, Time"⟩
        itemTypeGroup := .NodeItem
        numberWithinGroup := 1
        numberOfElements := 1
        timeData := [[10], [20]] }] }

/-- C9 counterexample: merging the singleton `[exampleFileC9]` does NOT
reproduce the file's own data.  The primary entry's merged list comes out
comparator-sorted, `[(2,20),(1,10)]`, while the file's own data is
`[(1,10),(2,20)]`; moreover the companion ("Time") entry's merged event
list is empty even though that entry has two time steps of data.  So the
claim "for every LTS result file ... an event list equal to that file's
own data for every entry" is false as stated. -/
theorem lts_singleton_merge_counterexample :
    (LTSResultMergerExtreme.merge [exampleFileC9]).map
        (fun pr => lookupId pr.1 (exampleFileC9.entryId ⟨0, 0⟩))
      = .ok (some [⟨2, 20⟩, ⟨1, 10⟩]) ∧
    extremeEventsOf exampleFileC9 ⟨0, 0⟩ ⟨1, 0⟩ = [⟨1, 10⟩, ⟨2, 20⟩] ∧
    ([⟨2, 20⟩, ⟨1, 10⟩] : List LTSResultEvent) ≠ [⟨1, 10⟩, ⟨2, 20⟩] ∧
    (LTSResultMergerExtreme.merge [exampleFileC9]).map
        (fun pr => lookupId pr.1 (exampleFileC9.entryId ⟨1, 0⟩))
      = .ok (some []) ∧
    (exampleFileC9.item ⟨1, 0⟩).numberOfTimeSteps = 2 := by
  refine ⟨rfl, rfl, by decide, rfl, rfl⟩

/-- C9 amended: for every LTS result file with unique entry ids, a uniform
number of time steps, and all companion quantities present, whose
per-entry event data is already ordered by the policy comparator
(descending by Value with ascending-Time ties for Extreme; strictly
increasing TimePeriods — i.e. a strictly increasing time axis — for
Periodic), merging the singleton input list yields, for every primary
(non-derived) entry, an event list equal to that file's own data, and a
regenerated time axis whose length equals the entry's time-step count. -/
theorem lts_singleton_merge_amended :
    (∀ rd : ResultData,
      (rd.getAllDataEntries.map (fun de => rd.entryId de)).Pairwise (· ≠ ·) →
      rd.getAllDataEntries ≠ [] →
      (∀ it ∈ rd.dataItems, it.numberOfTimeSteps = rd.timesList.length) →
      (∀ de ∈ rd.getAllDataEntries,
        LTSResultMergerExtreme.isDerivedQuantity (rd.item de).quantity = false →
        (LTSResultMerger.getDataEntryForDerivedQuantity "Time" rd de
          (createMapIdToDataEntry rd rd.getAllDataEntries)).isSome) →
      (∀ de ∈ rd.getAllDataEntries, ∀ deT,
        LTSResultMerger.getDataEntryForDerivedQuantity "Time" rd de
          (createMapIdToDataEntry rd rd.getAllDataEntries) = some deT →
        (extremeEventsOf rd de deT).Sorted extremeLE) →
      ∃ m2 rd3, LTSResultMergerExtreme.merge [rd] = .ok (m2, rd3) ∧
        (∀ de ∈ rd.getAllDataEntries, ∀ deT,
          LTSResultMergerExtreme.isDerivedQuantity (rd.item de).quantity = false →
          LTSResultMerger.getDataEntryForDerivedQuantity "Time" rd de
            (createMapIdToDataEntry rd rd.getAllDataEntries) = some deT →
          lookupId m2 (rd.entryId de) = some (extremeEventsOf rd de deT)) ∧
        (∀ de ∈ rd.getAllDataEntries,
          LTSResultMergerExtreme.isDerivedQuantity (rd.item de).quantity = false →
          rd3.timesList.length = (rd.item de).numberOfTimeSteps)) ∧
    (∀ rd : ResultData,
      (rd.getAllDataEntries.map (fun de => rd.entryId de)).Pairwise (· ≠ ·) →
      (∀ it ∈ rd.dataItems, it.numberOfTimeSteps = rd.timesList.length) →
      rd.timesList.Pairwise (fun a b => a.ticks < b.ticks) →
      (∀ de ∈ rd.getAllDataEntries,
        LTSResultMergerPeriodic.isDerivedQuantity (rd.item de).quantity = false →
        ¬(rd.item de).itemTypeGroup = ItemTypeGroup.GlobalItem →
        (LTSResultMerger.getDataEntryForDerivedQuantity "Count" rd de
          (createMapIdToDataEntry rd rd.getAllDataEntries)).isSome ∧
        (LTSResultMerger.getDataEntryForDerivedQuantity "Duration" rd de
          (createMapIdToDataEntry rd rd.getAllDataEntries)).isSome) →
      ∃ m2 rd3, LTSResultMergerPeriodic.merge [rd] = .ok (m2, rd3) ∧
        (∀ de ∈ rd.getAllDataEntries, ∀ deC deD,
          LTSResultMergerPeriodic.isDerivedQuantity (rd.item de).quantity = false →
          ¬(rd.item de).itemTypeGroup = ItemTypeGroup.GlobalItem →
          LTSResultMerger.getDataEntryForDerivedQuantity "Count" rd de
            (createMapIdToDataEntry rd rd.getAllDataEntries) = some deC →
          LTSResultMerger.getDataEntryForDerivedQuantity "Duration" rd de
            (createMapIdToDataEntry rd rd.getAllDataEntries) = some deD →
          lookupId m2 (rd.entryId de) = some (periodicEventsOf rd de deC deD)) ∧
        (∀ de ∈ rd.getAllDataEntries,
          LTSResultMergerPeriodic.isDerivedQuantity (rd.item de).quantity = false →
          (rd.item de).itemTypeGroup = ItemTypeGroup.GlobalItem →
          lookupId m2 (rd.entryId de) = some (periodicGlobalEventsOf rd de)) ∧
        (∀ de ∈ rd.getAllDataEntries,
          LTSResultMergerPeriodic.isDerivedQuantity (rd.item de).quantity = false →
          rd3.timesList.length = (rd.item de).numberOfTimeSteps)) := by
  constructor
  · intro rd h1 h2 h3 h4 h5
    exact extreme_singleton_merge_aux rd h1 h2 h3 h4 h5
  · intro rd h1 h2 h3 h4
    rcases periodic_singleton_merge_aux rd h1 h2 h3 h4 with
      ⟨m2, rd3, hmerge, hprim, hglob, haxis⟩
    refine ⟨m2, rd3, hmerge, hprim, hglob, ?_⟩
    intro de hde _
    rw [haxis, h2 (rd.item de) (item_mem rd de (getAllDataEntries_mem rd de hde).1)]

/-- C9 witness Extreme file: correctly descending values. -/
def exampleFileC9E : ResultData :=
  { resultType := .LTSEvents
    timesList := [⟨0⟩, ⟨1⟩]
    dataItems := [
      { quantity := ⟨"WaterLevelMaximum", "Water level maximum"⟩
        itemTypeGroup := .NodeItem
        numberWithinGroup := 1
        numberOfElements := 1
        timeData := [[2], [1]] },
      { quantity := ⟨"WaterLevelMaximumTime", "Water level maximum, Time"⟩
        itemTypeGroup := .NodeItem
        numberWithinGroup := 1
        numberOfElements := 1
        timeData := [[20], [10]] }] }

/-- C9 witness Periodic (monthly) file with strictly increasing axis. -/
def exampleFileC9P : ResultData :=
  { resultType := .LTSMonthly
    timesList := [⟨100⟩, ⟨200⟩]
    dataItems := [
      { quantity := ⟨"DischargeIntegratedMonthly", "Discharge integrated monthly"⟩
        itemTypeGroup := .NodeItem
        numberWithinGroup := 1
        numberOfElements := 1
        timeData := [[5], [6]] },
      { quantity := ⟨"DischargeIntegratedMonthlyCount", "Discharge integrated monthly, Count"⟩
        itemTypeGroup := .NodeItem
        numberWithinGroup := 1
        numberOfElements := 1
        timeData := [[2], [3]] },
      { quantity :=
          ⟨"DischargeIntegratedMonthlyDuration", "Discharge integrated monthly, Duration"⟩
        itemTypeGroup := .NodeItem
        numberWithinGroup := 1
        numberOfElements := 1
        timeData := [[7], [8]] }] }

/-- Witness for the amended C9 at two concrete well-formed files. -/
theorem lts_singleton_merge_amended_witness :
    (∃ m2 rd3, LTSResultMergerExtreme.merge [exampleFileC9E] = .ok (m2, rd3) ∧
      (∀ de ∈ exampleFileC9E.getAllDataEntries, ∀ deT,
        LTSResultMergerExtreme.isDerivedQuantity (exampleFileC9E.item de).quantity = false →
        LTSResultMerger.getDataEntryForDerivedQuantity "Time" exampleFileC9E de
          (createMapIdToDataEntry exampleFileC9E exampleFileC9E.getAllDataEntries)
            = some deT →
        lookupId m2 (exampleFileC9E.entryId de)
          = some (extremeEventsOf exampleFileC9E de deT)) ∧
      (∀ de ∈ exampleFileC9E.getAllDataEntries,
        LTSResultMergerExtreme.isDerivedQuantity (exampleFileC9E.item de).quantity = false →
        rd3.timesList.length = (exampleFileC9E.item de).numberOfTimeSteps)) ∧
    (∃ m2 rd3, LTSResultMergerPeriodic.merge [exampleFileC9P] = .ok (m2, rd3) ∧
      (∀ de ∈ exampleFileC9P.getAllDataEntries, ∀ deC deD,
        LTSResultMergerPeriodic.isDerivedQuantity (exampleFileC9P.item de).quantity = false →
        ¬(exampleFileC9P.item de).itemTypeGroup = ItemTypeGroup.GlobalItem →
        LTSResultMerger.getDataEntryForDerivedQuantity "Count" exampleFileC9P de
          (createMapIdToDataEntry exampleFileC9P exampleFileC9P.getAllDataEntries)
            = some deC →
        LTSResultMerger.getDataEntryForDerivedQuantity "Duration" exampleFileC9P de
          (createMapIdToDataEntry exampleFileC9P exampleFileC9P.getAllDataEntries)
            = some deD →
        lookupId m2 (exampleFileC9P.entryId de)
          = some (periodicEventsOf exampleFileC9P de deC deD)) ∧
      (∀ de ∈ exampleFileC9P.getAllDataEntries,
        LTSResultMergerPeriodic.isDerivedQuantity (exampleFileC9P.item de).quantity = false →
        (exampleFileC9P.item de).itemTypeGroup = ItemTypeGroup.GlobalItem →
        lookupId m2 (exampleFileC9P.entryId de)
          = some (periodicGlobalEventsOf exampleFileC9P de)) ∧
      (∀ de ∈ exampleFileC9P.getAllDataEntries,
        LTSResultMergerPeriodic.isDerivedQuantity (exampleFileC9P.item de).quantity = false →
        rd3.timesList.length = (exampleFileC9P.item de).numberOfTimeSteps)) := by
  constructor
  · refine lts_singleton_merge_amended.1 exampleFileC9E
      (by decide) (by decide) (by decide) (by decide) ?_
    intro de hde deT hder
    have hde2 : de ∈ [(⟨0, 0⟩ : DataEntry), ⟨1, 0⟩] := hde
    rcases List.mem_cons.mp hde2 with rfl | hde3
    · have h2 : some (⟨1, 0⟩ : DataEntry) = some deT := hder
      injection h2 with h3
      rw [← h3]
      decide
    · rcases List.mem_singleton.mp hde3 with rfl
      exact Option.noConfusion hder
  · exact lts_singleton_merge_amended.2 exampleFileC9P
      (by decide) (by decide) (by decide) (by decide)

end MikeIOModel
